import Mathlib

/-!
Verification of the execution core of an agent workflow orchestration
service (backend/app): the DAG resolver (`app/utils/dag_resolver.py`), the
execution service (`app/services/execution_service.py`) and the execution
models (`app/models/workflow_execution.py`, `app/models/node_execution.py`,
`app/models/workflow.py`).

The embedding is a shallow one over lists and pure functions:

* JSON node/connection dicts become `NodeSpec` / `Conn` records; a missing
  or empty `source`/`target` (falsy in Python) is the empty string.
* Python dicts with a fixed key set (the in-degree map) become a function
  `String → Int` together with the key list `keys g` (node ids deduplicated
  keeping the first occurrence, which is the insertion order of a Python
  dict built by comprehension over the nodes).
* The database session becomes an explicit state `St` holding the rows of
  every table, plus the WebSocket broadcasts as an event trace and a
  counter for fresh primary keys.  `datetime.utcnow()` is modeled as
  reading a fixed external clock `St.now`.
* A raised `ValueError` becomes the `SvcResult.err` constructor; it carries
  the session state at the moment of the raise (no implicit rollback), so
  "the state is unchanged on this error" is a real statement about where
  in the control flow the raise happens.
* The unbounded `while queue` loop of Kahn's algorithm runs on fuel
  `g.nodes.length`; a node enters the queue at most once and every round
  consumes a non-empty queue, so this fuel is never exhausted before the
  queue empties.
-/

/-- Connection dict of a workflow: `conn.get("source")` / `conn.get("target")`,
with `""` standing for a missing or empty (falsy) value. -/
structure Conn where
  source : String
  target : String
deriving DecidableEq, Repr

/-- Node dict of a workflow: `id` is required; `type` and `name` are read
with `node.get`, hence optional. -/
structure NodeSpec where
  id : String
  type : Option String := none
  name : Option String := none
deriving DecidableEq, Repr

/-- The pair of lists handed to `DAGResolver.__init__`. -/
structure Graph where
  nodes : List NodeSpec
  connections : List Conn
deriving DecidableEq, Repr

instance {ε α : Type} [DecidableEq ε] [DecidableEq α] : DecidableEq (Except ε α)
  | .error e, .error f => decidable_of_iff (e = f) (by simp)
  | .error _, .ok _ => isFalse (by simp)
  | .ok _, .error _ => isFalse (by simp)
  | .ok a, .ok b => decidable_of_iff (a = b) (by simp)

/-- Deduplication keeping the first occurrence: the key order of a Python
dict built by inserting each node id in turn. -/
def dedupFirst : List String → List String
  | [] => []
  | x :: xs => x :: (dedupFirst xs).filter (fun y => y ≠ x)

namespace DAGResolver

/-- Connections kept by `_build_adjacency_list`: `if source and target`. -/
def validConns (g : Graph) : List Conn :=
  g.connections.filter (fun c => c.source ≠ "" ∧ c.target ≠ "")

/-- `self.adjacency_list.get(s, [])`: targets of valid connections leaving
`s`, in connection order. -/
def children (g : Graph) (s : String) : List String :=
  ((validConns g).filter (fun c => c.source = s)).map (fun c => c.target)

/-- The raw node id list (`[node["id"] for node in nodes]`). -/
def nodeIds (g : Graph) : List String := g.nodes.map (fun n => n.id)

/-- Key set of `self.in_degree` (`{node["id"]: 0 for node in self.nodes}`):
node ids, first occurrence kept. -/
def keys (g : Graph) : List String := dedupFirst (nodeIds g)

/-- Valid connections into `v`; `_calculate_in_degree` counts these (one per
occurrence of `v` in an adjacency value). -/
def targeting (g : Graph) (v : String) : List Conn :=
  (validConns g).filter (fun c => c.target = v)

/-- Initial in-degree of `v` as `_calculate_in_degree` computes it for keys
of the in-degree dict. -/
def inDeg0 (g : Graph) (v : String) : Int := ((targeting g v).length : Int)

/-- Number of valid connections into `v` whose source lies in `S`
(auxiliary for the loop invariant). -/
def cntFrom (g : Graph) (S : List String) (v : String) : Nat :=
  (targeting g v).countP (fun c => decide (c.source ∈ S))

/-- One child decrement inside the level loop: `if child in in_degree_copy:
in_degree_copy[child] -= 1; if in_degree_copy[child] == 0: queue.append(child)`. -/
def kahnStep (ks : List String) (st : (String → Int) × List String) (t : String) :
    (String → Int) × List String :=
  if t ∈ ks then
    ((fun x => if x = t then st.1 t - 1 else st.1 x),
      if st.1 t - 1 = 0 then st.2 ++ [t] else st.2)
  else st

/-- Processing all nodes of the current level: for each node, decrement each
of its children. -/
def processLevel (g : Graph) (st : (String → Int) × List String) (lvl : List String) :
    (String → Int) × List String :=
  lvl.foldl (fun acc nid => (children g nid).foldl (kahnStep (keys g)) acc) st

/-- The `while queue` loop of `topological_sort`, on fuel.  Each round takes
the whole queue as the current level, processes it, and continues with the
freshly filled queue. -/
def kahnLoop (g : Graph) : Nat → List String → (String → Int) →
    List (List String) → List String → List (List String) × List String
  | 0, _, _, levels, processed => (levels, processed)
  | fuel + 1, queue, deg, levels, processed =>
    if queue.isEmpty then (levels, processed)
    else
      let currentLevel := queue
      let next := processLevel g (deg, []) currentLevel
      kahnLoop g fuel next.2 next.1 (levels ++ [currentLevel]) (processed ++ currentLevel)

/-- `DAGResolver.topological_sort`: Kahn's algorithm grouped by level.
Raises when the initial queue is empty, and when fewer distinct nodes than
`len(self.nodes)` were processed (cycle detection). -/
def topological_sort (g : Graph) : Except String (List (List String)) :=
  let queue0 := (keys g).filter (fun n => inDeg0 g n = 0)
  if queue0.isEmpty then
    .error "No starting nodes found (all nodes have dependencies)"
  else
    let res := kahnLoop g g.nodes.length queue0 (inDeg0 g) [] []
    if (dedupFirst res.2).length ≠ g.nodes.length then
      .error "Cycle detected in workflow. Unprocessed nodes remain"
    else
      .ok res.1

/-- Invariant of the level loop of `topological_sort` over graph `g`:
`levels` are the levels emitted so far, `queue` the pending frontier and
`deg` the current in-degree table.  It records that processed and queued
nodes are distinct keys of in-degree zero, that `deg` counts the valid
in-edges not yet consumed, that only nodes of positive remaining in-degree
are outside the frontier, and that every in-edge of a node of level `i`
comes from a node of an earlier level. -/
structure KInv (g : Graph) (levels : List (List String)) (queue : List String)
    (deg : String → Int) : Prop where
  nodup : (levels.flatten ++ queue).Nodup
  subK : ∀ v ∈ levels.flatten ++ queue, v ∈ keys g
  degEq : ∀ v ∈ keys g, deg v = inDeg0 g v - (cntFrom g levels.flatten v : Int)
  degZero : ∀ v ∈ levels.flatten ++ queue, deg v = 0
  freshNZ : ∀ v ∈ keys g, v ∉ levels.flatten ++ queue → deg v ≠ 0
  lvlStruct : ∀ i v, v ∈ levels.getD i [] → ∀ c ∈ targeting g v,
    c.source ∈ (levels.take i).flatten

/-- Witness of a cycle among the workflow graph edges: a non-empty set of
node ids each of which has a valid in-edge from within the set.  The vertex
set of any directed cycle is such a set, and conversely following in-edges
inside such a finite set must revisit a vertex. -/
def CycleSet (g : Graph) (C : List String) : Prop :=
  C ≠ [] ∧ ∀ v ∈ C, ∃ u ∈ C, ∃ c ∈ validConns g, c.source = u ∧ c.target = v

instance (g : Graph) (C : List String) : Decidable (CycleSet g C) := by
  unfold CycleSet
  infer_instance

/-- `DAGResolver.get_execution_order`: flat `(level, node_id)` pairs. -/
def get_execution_order (g : Graph) : Except String (List (Nat × String)) :=
  match topological_sort g with
  | .error e => .error e
  | .ok levels => .ok (levels.enum.flatMap (fun p => p.2.map (fun nid => (p.1, nid))))

/-- Source keys of the adjacency dict, in insertion order (first occurrence
of each source among the valid connections). -/
def adjSources (g : Graph) : List String :=
  dedupFirst ((validConns g).map (fun c => c.source))

/-- `DAGResolver.get_node_dependencies`: sources whose adjacency value
contains `node_id`. -/
def get_node_dependencies (g : Graph) (nodeId : String) : List String :=
  (adjSources g).filter (fun s => nodeId ∈ children g s)

/-- `DAGResolver.get_node_dependents`. -/
def get_node_dependents (g : Graph) (nodeId : String) : List String :=
  children g nodeId

/-- `DAGResolver.can_execute_node`. -/
def can_execute_node (g : Graph) (nodeId : String) (completed : List String) : Bool :=
  (get_node_dependencies g nodeId).all (fun dep => dep ∈ completed)

/-- `DAGResolver.get_executable_nodes`. -/
def get_executable_nodes (g : Graph) (completed : List String) : List String :=
  (keys g).filter (fun nid => nid ∉ completed ∧ can_execute_node g nid completed)

/-- `DAGResolver.validate_workflow`: the disconnected-node scan is a no-op,
so the result only reflects `topological_sort`. -/
def validate_workflow (g : Graph) : Bool × Option String :=
  match topological_sort g with
  | .error e => (false, some e)
  | .ok _ => (true, none)

end DAGResolver

/-! ## Execution store, models and service

State-passing embedding of `app/models/workflow.py`,
`app/models/workflow_execution.py`, `app/models/node_execution.py` and
`app/services/execution_service.py`. -/

mutual
/-- Minimal JSON value algebra for the untyped dict payloads
(`input_data`, `output_data`, `context`, `error_details`). -/
inductive JVal where
  | null
  | str (s : String)
  | num (n : Nat)
  | obj (fields : JFields)
deriving DecidableEq, Repr

/-- Association list of a JSON object, in insertion order. -/
inductive JFields where
  | nil
  | cons (key : String) (val : JVal) (rest : JFields)
deriving DecidableEq, Repr
end

/-- Log entry appended by `add_log_entry`: `timestamp`, `level`, `message`. -/
structure LogEntry where
  timestamp : Nat
  level : String
  message : String
deriving DecidableEq, Repr

/-- Row of the `workflows` table (the fields the execution core reads). -/
structure Workflow where
  id : Nat
  user_id : Nat
  nodes : List NodeSpec
  connections : List Conn
deriving DecidableEq, Repr

/-- Row of the `workflow_executions` table. -/
structure WorkflowExecution where
  id : Nat
  workflow_id : Nat
  user_id : Nat
  status : String
  started_at : Option Nat := none
  completed_at : Option Nat := none
  duration_seconds : Option Int := none
  input_data : JVal := .obj .nil
  output_data : JVal := .obj .nil
  context : JVal := .obj .nil
  total_nodes : Nat := 0
  completed_nodes : Nat := 0
  failed_nodes : Nat := 0
  error_message : Option String := none
  error_details : JVal := .obj .nil
  execution_log : List LogEntry := []
  retry_count : Nat := 0
  max_retries : Nat := 3
  priority : Nat := 0
  scheduled_at : Option Nat := none
deriving DecidableEq, Repr

/-- Row of the `node_executions` table. -/
structure NodeExecution where
  id : Nat
  workflow_execution_id : Nat
  agent_id : Option Nat := none
  user_id : Nat
  node_id : String
  node_name : String := ""
  node_type : String := "unknown"
  status : String := "pending"
  started_at : Option Nat := none
  completed_at : Option Nat := none
  duration_seconds : Option Int := none
  input_data : JVal := .obj .nil
  output_data : JVal := .obj .nil
  error_message : Option String := none
  error_details : JVal := .obj .nil
  execution_log : List LogEntry := []
  retry_count : Nat := 0
  max_retries : Nat := 3
  execution_order : Nat := 0
  parent_node_ids : List String := []
  child_node_ids : List String := []
deriving DecidableEq, Repr

/-- Row of the `agents` table (the fields `create_execution` reads). -/
structure Agent where
  id : Nat
  workflow_id : Nat
  node_id : String
deriving DecidableEq, Repr

/-- WebSocket broadcast, as emitted by `broadcast_execution_update` and
`broadcast_node_update`. -/
inductive Event where
  | executionUpdate (execId : Nat) (status : String) (progress : Rat)
      (completedNodes totalNodes : Nat) (currentNode : Option String)
  | nodeUpdate (execId nodeExecId : Nat) (nodeId nodeName status message : String)
deriving DecidableEq, Repr

/-- Database plus broadcast state threaded through the service calls.
`nextId` models primary-key generation, `now` the external clock read by
`datetime.utcnow()`. -/
structure St where
  workflows : List Workflow := []
  executions : List WorkflowExecution := []
  nodeExecutions : List NodeExecution := []
  agents : List Agent := []
  events : List Event := []
  nextId : Nat := 100
  now : Nat := 0
deriving DecidableEq, Repr

/-- Result of a service call: a normal return, or a raised `ValueError`.
Both carry the session state reached by then; the interesting error paths
of the source raise before any write, which the theorems below make
explicit. -/
inductive SvcResult (α : Type) where
  | ok (st : St) (val : α)
  | err (st : St) (msg : String)
deriving DecidableEq, Repr

/-- Body of `ExecutionCreate` (every field optional in the schema). -/
structure ExecutionCreate where
  input_data : Option JVal := none
  context : Option JVal := none
  priority : Option Nat := none
  scheduled_at : Option Nat := none
  max_retries : Option Nat := none
deriving DecidableEq, Repr

/-- Python `x or d` for an optional integer: `None` and `0` are falsy. -/
def pyOrNat (o : Option Nat) (d : Nat) : Nat :=
  match o with
  | none => d
  | some n => if n = 0 then d else n

/-- Python `x or` an empty dict default for an optional JSON object. -/
def pyOrObj (o : Option JVal) : JVal :=
  match o with
  | none => .obj .nil
  | some v => v

/-- `WorkflowExecution.is_failed`. -/
def WorkflowExecution.is_failed (e : WorkflowExecution) : Bool := e.status == "failed"

/-- `WorkflowExecution.can_retry`. -/
def WorkflowExecution.can_retry (e : WorkflowExecution) : Bool :=
  e.is_failed && e.retry_count < e.max_retries

/-- `WorkflowExecution.get_progress_percentage`: guarded division. -/
def WorkflowExecution.get_progress_percentage (e : WorkflowExecution) : Rat :=
  if e.total_nodes = 0 then 0
  else ((e.completed_nodes : Rat) / (e.total_nodes : Rat)) * 100

/-- `WorkflowExecution.add_log_entry`. -/
def WorkflowExecution.add_log_entry (e : WorkflowExecution) (now : Nat)
    (level message : String) : WorkflowExecution :=
  { e with execution_log := e.execution_log ++ [⟨now, level, message⟩] }

/-- `WorkflowExecution.calculate_duration`. -/
def WorkflowExecution.calculate_duration (e : WorkflowExecution) : WorkflowExecution :=
  match e.started_at, e.completed_at with
  | some s, some c => { e with duration_seconds := some ((c : Int) - (s : Int)) }
  | _, _ => e

/-- `NodeExecution.can_retry`. -/
def NodeExecution.can_retry (n : NodeExecution) : Bool :=
  n.status == "failed" && n.retry_count < n.max_retries

/-- `NodeExecution.add_log_entry`. -/
def NodeExecution.add_log_entry (n : NodeExecution) (now : Nat)
    (level message : String) : NodeExecution :=
  { n with execution_log := n.execution_log ++ [⟨now, level, message⟩] }

/-- `NodeExecution.calculate_duration`. -/
def NodeExecution.calculate_duration (n : NodeExecution) : NodeExecution :=
  match n.started_at, n.completed_at with
  | some s, some c => { n with duration_seconds := some ((c : Int) - (s : Int)) }
  | _, _ => n

/-- Scan of `Workflow.validate_structure` over the connections: first
missing endpoint wins. -/
def checkConnRefs (nodeIds : List String) : List Conn → Option String
  | [] => none
  | c :: rest =>
    if c.source ∉ nodeIds then some "Connection source not found in nodes"
    else if c.target ∉ nodeIds then some "Connection target not found in nodes"
    else checkConnRefs nodeIds rest

/-- `Workflow.validate_structure`. -/
def Workflow.validate_structure (w : Workflow) : Bool × Option String :=
  let node_ids := w.nodes.map (fun n => n.id)
  if node_ids.length ≠ (dedupFirst node_ids).length then
    (false, some "Duplicate node IDs found")
  else
    match checkConnRefs node_ids w.connections with
    | some e => (false, some e)
    | none => (true, none)

/-- `Workflow.get_node_by_id`. -/
def Workflow.get_node_by_id (w : Workflow) (nodeId : String) : Option NodeSpec :=
  w.nodes.find? (fun n => n.id == nodeId)

/-- View of the workflow definition as the resolver input. -/
def Workflow.graph (w : Workflow) : Graph := ⟨w.nodes, w.connections⟩

/-- Update the execution row with the given primary key. -/
def St.updExec (st : St) (eid : Nat) (f : WorkflowExecution → WorkflowExecution) : St :=
  { st with executions := st.executions.map (fun e => if e.id = eid then f e else e) }

/-- Update the node-execution row with the given primary key. -/
def St.updNode (st : St) (nid : Nat) (f : NodeExecution → NodeExecution) : St :=
  { st with nodeExecutions := st.nodeExecutions.map (fun n => if n.id = nid then f n else n) }

/-- `select(NodeExecution).where(NodeExecution.id == ...)`. -/
def St.findNode (st : St) (nid : Nat) : Option NodeExecution :=
  st.nodeExecutions.find? (fun n => n.id == nid)

/-- Append one WebSocket event. -/
def St.push (st : St) (ev : Event) : St := { st with events := st.events ++ [ev] }

/-- `broadcast_execution_update`, reading the fields the call sites pass. -/
def broadcast_execution_update (st : St) (e : WorkflowExecution) (progress : Rat)
    (current : Option String) : St :=
  st.push (.executionUpdate e.id e.status progress e.completed_nodes e.total_nodes current)

/-- `broadcast_node_update`. -/
def broadcast_node_update (st : St) (execId : Nat) (n : NodeExecution) (message : String) : St :=
  st.push (.nodeUpdate execId n.id n.node_id n.node_name n.status message)

namespace ExecutionService

/-- `ExecutionService.get_execution`: lookup filtered by id and owner. -/
def get_execution (st : St) (executionId userId : Nat) : Option WorkflowExecution :=
  st.executions.find? (fun e => e.id == executionId && e.user_id == userId)

/-- Body of the node-creation loop of `create_execution` for one
`(order, (level, node_id))` entry of the flat plan.  The `level` component
`p.2.1` is unpacked by the source and not used; `execution_order` is set to
the enumerate index `p.1`. -/
def createNodeRow (st : St) (workflowId userId executionId : Nat) (workflow : Workflow)
    (p : Nat × (Nat × String)) : St :=
  match workflow.get_node_by_id p.2.2 with
  | none => st
  | some node =>
    let agent : Option Agent :=
      if node.type == some "agent" then
        st.agents.find? (fun a => a.workflow_id == workflowId && a.node_id == p.2.2)
      else none
    let row : NodeExecution := {
      id := st.nextId
      workflow_execution_id := executionId
      agent_id := agent.map (fun a => a.id)
      user_id := userId
      node_id := p.2.2
      node_name := node.name.getD ("Node " ++ p.2.2)
      node_type := node.type.getD "unknown"
      status := "pending"
      execution_order := p.1
      parent_node_ids := DAGResolver.get_node_dependencies workflow.graph p.2.2
      child_node_ids := DAGResolver.get_node_dependents workflow.graph p.2.2
      max_retries := 3 }
    { st with nodeExecutions := st.nodeExecutions ++ [row], nextId := st.nextId + 1 }

/-- `ExecutionService.create_execution`.  The structural validation and the
resolver run strictly before the first `db.add`; `validate_workflow` is
called with its result discarded, and the raise comes from
`get_execution_order` re-running the sort. -/
def create_execution (st : St) (workflowId userId : Nat) (data : ExecutionCreate) :
    SvcResult (Option Nat) :=
  match st.workflows.find? (fun w => w.id == workflowId && w.user_id == userId) with
  | none => .ok st none
  | some workflow =>
    match workflow.validate_structure with
    | (false, e) => .err st ("Invalid workflow structure: " ++ e.getD "")
    | (true, _) =>
      match DAGResolver.get_execution_order workflow.graph with
      | .error e => .err st ("Workflow validation failed: " ++ e)
      | .ok executionOrder =>
        let execution : WorkflowExecution := {
          id := st.nextId
          workflow_id := workflowId
          user_id := userId
          status := "pending"
          input_data := pyOrObj data.input_data
          context := pyOrObj data.context
          total_nodes := workflow.nodes.length
          priority := pyOrNat data.priority 0
          scheduled_at := data.scheduled_at
          max_retries := pyOrNat data.max_retries 3 }
        let st1 : St := { st with executions := st.executions ++ [execution],
                                  nextId := st.nextId + 1 }
        let st2 := executionOrder.enum.foldl
          (fun acc p => createNodeRow acc workflowId userId execution.id workflow p) st1
        let st3 := st2.updExec execution.id
          (fun e => e.add_log_entry st2.now "info" "Workflow execution created")
        .ok st3 (some execution.id)

/-- `ExecutionService.cancel_execution`. -/
def cancel_execution (st : St) (executionId userId : Nat) : SvcResult (Option Nat) :=
  match get_execution st executionId userId with
  | none => .ok st none
  | some execution =>
    if execution.status ∉ (["pending", "running"] : List String) then
      .err st ("Cannot cancel execution with status: " ++ execution.status)
    else
      let st1 := st.updExec executionId (fun e =>
        ({ e with status := "cancelled",
                  completed_at := some st.now }).calculate_duration.add_log_entry
          st.now "info" "Workflow execution cancelled by user")
      let st2 : St := { st1 with nodeExecutions := st1.nodeExecutions.map (fun n =>
        if n.workflow_execution_id == executionId &&
            (n.status == "pending" || n.status == "running") then
          ({ n with status := "cancelled" }).add_log_entry st.now "info"
            "Node execution cancelled"
        else n) }
      let e2 := (get_execution st2 executionId userId).getD execution
      let st3 := broadcast_execution_update st2 e2 e2.get_progress_percentage none
      .ok st3 (some executionId)

/-- `ExecutionService._execute_agent_node`: deterministic mock payload. -/
def _execute_agent_node (input_data : JFields) (context : JVal) : JVal :=
  .obj (.cons "status" (.str "completed")
    (.cons "response" (.str "Agent execution completed (mock)")
      (.cons "input_data" (.obj input_data) (.cons "context" context .nil))))

/-- Input composition of `_execute_node_inline`: one key per parent node id
whose row is found, bound to that parent's `output_data`. -/
def gatherParentInputs (st : St) (executionId : Nat) : List String → JFields
  | [] => .nil
  | pid :: rest =>
    match st.nodeExecutions.find?
        (fun n => n.workflow_execution_id == executionId && n.node_id == pid) with
    | none => gatherParentInputs st executionId rest
    | some parent => .cons pid parent.output_data (gatherParentInputs st executionId rest)

/-- `ExecutionService._execute_node_inline`.  The two handlers (mock agent
call and pass-through) cannot raise, so the `except` branch of the source
(mark node failed, bump the parent's `failed_nodes`, re-raise) is
unreachable and not modeled. -/
def _execute_node_inline (st : St) (nodeExecId : Nat) (we : WorkflowExecution) : St :=
  match st.findNode nodeExecId with
  | none => st
  | some ne0 =>
    let st1 := st.updNode nodeExecId (fun n =>
      ({ n with status := "running", started_at := some st.now }).add_log_entry
        st.now "info" "Node execution started")
    let ne1 := (st1.findNode nodeExecId).getD ne0
    let st2 := broadcast_node_update st1 we.id ne1 "Node execution started"
    let input_data := gatherParentInputs st2 we.id ne1.parent_node_ids
    let output_data : JVal :=
      if ne1.node_type == "agent" then _execute_agent_node input_data we.context
      else .obj (.cons "status" (.str "completed") (.cons "input" (.obj input_data) .nil))
    let st3 := st2.updNode nodeExecId (fun n =>
      ({ n with status := "completed", completed_at := some st2.now,
                output_data := output_data }).calculate_duration.add_log_entry
        st2.now "info" "Node execution completed")
    let ne3 := (st3.findNode nodeExecId).getD ne1
    broadcast_node_update st3 we.id ne3 "Node execution completed"

/-- Body of the level loop of `execute_workflow` for one node id: fetch the
row, execute it inline, advance the completed set and counter, broadcast. -/
def runNode (st : St) (execution : WorkflowExecution) (completed : List String)
    (nodeId : String) : St × List String :=
  match st.nodeExecutions.find?
      (fun n => n.workflow_execution_id == execution.id && n.node_id == nodeId) with
  | none => (st, completed)
  | some ne =>
    let st1 := _execute_node_inline st ne.id execution
    let completed1 := if nodeId ∈ completed then completed else completed ++ [nodeId]
    let st2 := st1.updExec execution.id (fun e => { e with completed_nodes := completed1.length })
    let e2 := (get_execution st2 execution.id execution.user_id).getD execution
    let st3 := broadcast_execution_update st2 e2 e2.get_progress_percentage (some nodeId)
    (st3, completed1)

/-- One level of the loop of `execute_workflow`: log the level header, then
run every node id of the level in order.  No status is consulted. -/
def runLevel (execution : WorkflowExecution) (numLevels : Nat)
    (acc : St × List String) (p : Nat × List String) : St × List String :=
  let st0 := acc.1.updExec execution.id (fun e => e.add_log_entry acc.1.now "info"
    ("Executing level " ++ toString (p.1 + 1) ++ "/" ++ toString numLevels))
  p.2.foldl (fun a nid => runNode a.1 execution a.2 nid) (st0, acc.2)

/-- Return dict of `execute_workflow`. -/
structure RunReport where
  status : String
  execution_id : Nat
  duration : Option Int
deriving DecidableEq, Repr

/-- Failure branch (`except`) of `execute_workflow`: mark the execution
failed and re-raise. -/
def failRun (st : St) (execution : WorkflowExecution) (userId : Nat) (msg : String) :
    SvcResult RunReport :=
  let st1 := st.updExec execution.id (fun e =>
    ({ e with status := "failed", completed_at := some st.now,
              error_message := some msg }).calculate_duration.add_log_entry
      st.now "error" ("Workflow execution failed: " ++ msg))
  let e1 := (get_execution st1 execution.id userId).getD execution
  let st2 := broadcast_execution_update st1 e1 e1.get_progress_percentage none
  .err st2 msg

/-- `ExecutionService.execute_workflow`: unconditionally transitions the
found execution to `running`, re-derives the plan, runs the levels in
order, then marks the execution `completed`.  There is no check of the
prior status and no re-check of the status between levels. -/
def execute_workflow (st : St) (executionId userId : Nat) : SvcResult RunReport :=
  match get_execution st executionId userId with
  | none => .err st "Workflow execution not found"
  | some execution =>
    let st1 := st.updExec executionId (fun e =>
      ({ e with status := "running", started_at := some st.now }).add_log_entry
        st.now "info" "Workflow execution started")
    let e1 := (get_execution st1 executionId userId).getD execution
    let st2 := broadcast_execution_update st1 e1 e1.get_progress_percentage none
    match st2.workflows.find? (fun w => w.id == execution.workflow_id) with
    | none => failRun st2 execution userId "No row was found when one was required"
    | some workflow =>
      match DAGResolver.topological_sort workflow.graph with
      | .error e => failRun st2 execution userId e
      | .ok levels =>
        let r := levels.enum.foldl (runLevel execution levels.length) (st2, [])
        let st3 := r.1.updExec executionId (fun e =>
          ({ e with status := "completed",
                    completed_at := some r.1.now }).calculate_duration.add_log_entry
            r.1.now "info" "Workflow execution completed successfully")
        let e3 := (get_execution st3 executionId userId).getD execution
        let st4 := broadcast_execution_update st3 e3 100 none
        .ok st4 { status := "completed", execution_id := executionId,
                  duration := e3.duration_seconds }

/-- Return dict of `execute_node`. -/
structure NodeReport where
  status : String
  node_execution_id : Nat
  output_data : JVal
deriving DecidableEq, Repr

/-- `ExecutionService.execute_node` (Celery path).  The node row is fetched
by primary key only; the `userId` argument is not used. -/
def execute_node (st : St) (nodeExecutionId workflowExecutionId userId : Nat) :
    SvcResult NodeReport :=
  match st.findNode nodeExecutionId with
  | none => .err st "Node execution not found"
  | some ne =>
    match st.executions.find? (fun e => e.id == workflowExecutionId) with
    | none => .err st "Workflow execution not found"
    | some workflow_execution =>
      let st1 := _execute_node_inline st nodeExecutionId workflow_execution
      let n1 := (st1.findNode nodeExecutionId).getD ne
      .ok st1 { status := n1.status, node_execution_id := nodeExecutionId,
                output_data := n1.output_data }

/-- `ExecutionService.retry_node_execution`: fetched by primary key only,
no owner filter; on a retryable node it resets the row and re-executes. -/
def retry_node_execution (st : St) (nodeExecutionId userId : Nat) : SvcResult NodeReport :=
  match st.findNode nodeExecutionId with
  | none => .err st "Node execution not found"
  | some node_execution =>
    if ¬ node_execution.can_retry then .err st "Node execution cannot be retried"
    else
      match st.executions.find? (fun e => e.id == node_execution.workflow_execution_id) with
      | none => .err st "Workflow execution not found"
      | some workflow_execution =>
        let st1 := st.updNode nodeExecutionId (fun n =>
          ({ n with retry_count := n.retry_count + 1, status := "pending",
                    error_message := none, error_details := .obj .nil }).add_log_entry
            st.now "info" "Node execution retry")
        execute_node st1 nodeExecutionId workflow_execution.id userId

end ExecutionService

/-- State reached by a call that returned normally. -/
def SvcResult.okState {α : Type} : SvcResult α → Option St
  | .ok st _ => some st
  | .err _ _ => none

/-- State reached by a call that raised. -/
def SvcResult.errState {α : Type} : SvcResult α → Option St
  | .err st _ => some st
  | .ok _ _ => none

/-! ### Concrete fixtures used by witnesses and counterexamples -/

/-- Diamond workflow: `n1 → n2 → n4`, `n1 → n3 → n4`. -/
def diamondW : Workflow where
  id := 1
  user_id := 1
  nodes := [⟨"n1", some "trigger", some "n1"⟩, ⟨"n2", some "action", some "n2"⟩,
    ⟨"n3", some "action", some "n3"⟩, ⟨"n4", some "action", some "n4"⟩]
  connections := [⟨"n1", "n2"⟩, ⟨"n1", "n3"⟩, ⟨"n2", "n4"⟩, ⟨"n3", "n4"⟩]

/-- Store holding only the diamond workflow. -/
def diamondSt : St := { workflows := [diamondW] }

/-- Two-node cyclic workflow: `a → b → a`. -/
def cyclicW : Workflow where
  id := 2
  user_id := 1
  nodes := [⟨"a", some "agent", none⟩, ⟨"b", some "agent", none⟩]
  connections := [⟨"a", "b"⟩, ⟨"b", "a"⟩]

/-- Store holding only the cyclic workflow. -/
def cyclicSt : St := { workflows := [cyclicW] }

/-- Acyclic two-node graph with a Python-falsy node id: the single
connection `a -> ""` joins two node ids, but `_build_adjacency_list`
drops it (`if source and target`). -/
def falsyIdG : Graph := ⟨[⟨"", none, none⟩, ⟨"a", none, none⟩], [⟨"a", ""⟩]⟩

/-- Workflow whose connections form a genuine two-cycle through the
falsy node id `""`: both edges join node ids, so structural validation
passes, yet the adjacency builder drops both. -/
def falsyCycleW : Workflow where
  id := 3
  user_id := 1
  nodes := [⟨"", none, none⟩, ⟨"a", none, none⟩]
  connections := [⟨"", "a"⟩, ⟨"a", ""⟩]

/-- Store holding only the falsy-cycle workflow. -/
def falsyCycleSt : St := { workflows := [falsyCycleW] }

/-- Store with an empty (zero-node) workflow and a pending execution of it. -/
def emptyWfSt : St where
  workflows := [{ id := 1, user_id := 1, nodes := [], connections := [] }]
  executions := [{ id := 10, workflow_id := 1, user_id := 1, status := "pending"
                   total_nodes := 0 }]

/-- Store with a one-node workflow and an execution already in the terminal
state `failed`, about to be dispatched a second time. -/
def redispatchSt : St where
  workflows := [{ id := 1, user_id := 1
                  nodes := [⟨"n1", some "action", some "n1"⟩], connections := [] }]
  executions := [{ id := 10, workflow_id := 1, user_id := 1, status := "failed"
                   total_nodes := 1, completed_nodes := 0, failed_nodes := 1 }]
  nodeExecutions := [{ id := 20, workflow_execution_id := 10, user_id := 1
                       node_id := "n1", node_name := "n1", node_type := "action"
                       status := "failed" }]

/-- Store owned by user 1 with a failed node execution, targeted by a retry
from a different user (2). -/
def foreignRetrySt : St where
  workflows := [{ id := 1, user_id := 1
                  nodes := [⟨"n1", some "action", some "n1"⟩], connections := [] }]
  executions := [{ id := 10, workflow_id := 1, user_id := 1, status := "failed"
                   total_nodes := 1 }]
  nodeExecutions := [{ id := 20, workflow_execution_id := 10, user_id := 1
                       node_id := "n1", node_name := "n1", node_type := "action"
                       status := "failed", retry_count := 0, max_retries := 3 }]

/-- Store with a completed execution, for the terminal-cancel claim. -/
def terminalCancelSt : St where
  workflows := [{ id := 1, user_id := 1
                  nodes := [⟨"n1", some "action", some "n1"⟩], connections := [] }]
  executions := [{ id := 10, workflow_id := 1, user_id := 1, status := "completed"
                   total_nodes := 1, completed_nodes := 1 }]

/-- Linear two-node workflow `n1 → n2` mid-run: the execution is `running`
and both node rows are still `pending`. -/
def cancelRaceSt0 : St where
  workflows := [{ id := 1, user_id := 1
                  nodes := [⟨"n1", some "action", some "n1"⟩,
                    ⟨"n2", some "action", some "n2"⟩]
                  connections := [⟨"n1", "n2"⟩] }]
  executions := [{ id := 10, workflow_id := 1, user_id := 1, status := "running"
                   total_nodes := 2 }]
  nodeExecutions := [
    { id := 20, workflow_execution_id := 10, user_id := 1, node_id := "n1"
      node_name := "n1", node_type := "action", status := "pending"
      child_node_ids := ["n2"] },
    { id := 21, workflow_execution_id := 10, user_id := 1, node_id := "n2"
      node_name := "n2", node_type := "action", status := "pending"
      parent_node_ids := ["n1"] }]

/-- The executor's in-memory copy of the parent execution in the
cancellation race. -/
def cancelRaceExec : WorkflowExecution where
  id := 10
  workflow_id := 1
  user_id := 1
  status := "running"
  total_nodes := 2

/-- State after the executor finished level 0 (node `n1`). -/
def cancelRaceSt1 : St :=
  (ExecutionService.runLevel cancelRaceExec 2 (cancelRaceSt0, []) (0, ["n1"])).1

/-- State after a concurrent `cancel_execution` lands between the levels. -/
def cancelRaceStC : St :=
  match ExecutionService.cancel_execution cancelRaceSt1 10 1 with
  | .ok s _ => s
  | .err s _ => s

/-- State after the executor, unaware of the cancellation, runs level 1. -/
def cancelRaceSt2 : St :=
  (ExecutionService.runLevel cancelRaceExec 2 (cancelRaceStC, ["n1"]) (1, ["n2"])).1

/-! ## Lemma development -/

theorem mem_dedupFirst {v : String} : ∀ {l : List String}, v ∈ dedupFirst l ↔ v ∈ l := by
  intro l
  induction l with
  | nil => simp [dedupFirst]
  | cons x xs ih =>
    simp only [dedupFirst, List.mem_cons, List.mem_filter]
    constructor
    · rintro (rfl | ⟨h, _⟩)
      · exact .inl rfl
      · exact .inr (ih.mp h)
    · rintro (rfl | h)
      · exact .inl rfl
      · by_cases hx : v = x
        · exact .inl hx
        · exact .inr ⟨ih.mpr h, by simpa using hx⟩

theorem nodup_dedupFirst : ∀ (l : List String), (dedupFirst l).Nodup := by
  intro l
  induction l with
  | nil => simp [dedupFirst]
  | cons x xs ih =>
    simp only [dedupFirst, List.nodup_cons]
    refine ⟨fun hx => ?_, ih.filter _⟩
    rw [List.mem_filter] at hx
    simp at hx

theorem dedupFirst_length_le : ∀ (l : List String), (dedupFirst l).length ≤ l.length := by
  intro l
  induction l with
  | nil => simp [dedupFirst]
  | cons x xs ih =>
    simp only [dedupFirst, List.length_cons]
    exact Nat.succ_le_succ (le_trans (List.length_filter_le _ _) ih)

theorem dedupFirst_eq_self : ∀ {l : List String}, l.Nodup → dedupFirst l = l := by
  intro l h
  induction l with
  | nil => rfl
  | cons x xs ih =>
    simp only [List.nodup_cons] at h
    simp only [dedupFirst, ih h.2, List.cons.injEq, true_and]
    exact List.filter_eq_self.mpr (fun y hy => by
      simp only [decide_eq_true_eq]
      rintro rfl; exact h.1 hy)

theorem length_filter_add_countQ {α : Type} (l : List α) (p : α → Bool) :
    (l.filter p).length + (l.filter (fun a => ! p a)).length = l.length := by
  induction l with
  | nil => rfl
  | cons a l ih =>
    by_cases h : p a = true
    · simp [List.filter_cons, h, Nat.succ_add, ih]
    · simp only [Bool.not_eq_true] at h
      simp [List.filter_cons, h]
      omega

theorem nodup_of_dedupFirst_length : ∀ {l : List String},
    (dedupFirst l).length = l.length → l.Nodup := by
  intro l
  induction l with
  | nil => simp
  | cons x xs ih =>
    intro h
    simp only [dedupFirst, List.length_cons, Nat.succ_inj] at h
    have hle := dedupFirst_length_le xs
    have hfle := List.length_filter_le (fun y => y ≠ x) (dedupFirst xs)
    have hlenf : (dedupFirst xs).length = xs.length := le_antisymm hle (by omega)
    have hfe : ((dedupFirst xs).filter (fun y => y ≠ x)).length = (dedupFirst xs).length := by
      omega
    have hx : x ∉ xs := by
      intro hxmem
      have hxd : x ∈ dedupFirst xs := mem_dedupFirst.mpr hxmem
      have hsplit := length_filter_add_countQ (dedupFirst xs) (fun y => decide (y ≠ x))
      have hpos : 0 < ((dedupFirst xs).filter (fun y => ! decide (y ≠ x))).length := by
        refine List.length_pos_of_mem (a := x) ?_
        simp [List.mem_filter, hxd]
      omega
    exact List.nodup_cons.mpr ⟨hx, ih hlenf⟩

namespace DAGResolver

theorem kahnStep_eq_of_mem {ks : List String} {t : String} (ht : t ∈ ks)
    (st : (String → Int) × List String) :
    kahnStep ks st t =
      ((fun x => if x = t then st.1 t - 1 else st.1 x),
        if st.1 t - 1 = 0 then st.2 ++ [t] else st.2) := by
  simp [kahnStep, ht]

theorem kahnStep_eq_of_not_mem {ks : List String} {t : String} (ht : t ∉ ks)
    (st : (String → Int) × List String) : kahnStep ks st t = st := by
  simp [kahnStep, ht]

theorem kahnFold_fst (ks : List String) : ∀ (ts : List String) (deg : String → Int)
    (q : List String) (v : String),
    (ts.foldl (kahnStep ks) (deg, q)).1 v =
      deg v - (if v ∈ ks then (ts.count v : Int) else 0) := by
  intro ts
  induction ts with
  | nil =>
    intro deg q v
    by_cases h : v ∈ ks <;> simp [h]
  | cons t rest ih =>
    intro deg q v
    rw [List.foldl_cons]
    by_cases ht : t ∈ ks
    · rw [kahnStep_eq_of_mem ht, ih]
      by_cases hv : v = t
      · subst hv
        simp only [if_pos rfl, if_pos ht, List.count_cons_self]
        push_cast
        ring
      · have hc : (t :: rest).count v = rest.count v := List.count_cons_of_ne hv rest
        simp only [if_neg hv, hc]
    · rw [kahnStep_eq_of_not_mem ht, ih]
      by_cases hv : v ∈ ks
      · have hvt : v ≠ t := fun he => ht (he ▸ hv)
        rw [if_pos hv, if_pos hv, List.count_cons_of_ne hvt rest]
      · rw [if_neg hv, if_neg hv]

theorem kahnFold_fst_le_start (ks : List String) (ts : List String) (deg : String → Int)
    (q : List String) (v : String) :
    (ts.foldl (kahnStep ks) (deg, q)).1 v ≤ deg v := by
  rw [kahnFold_fst]
  by_cases h : v ∈ ks
  · rw [if_pos h]
    have : (0 : Int) ≤ (ts.count v : Int) := Int.natCast_nonneg _
    omega
  · rw [if_neg h]
    omega

theorem kahnStep_pre {ks : List String} {deg : String → Int} {q : List String} (t : String)
    (hnd : q.Nodup) (hle : ∀ v ∈ q, deg v ≤ 0) :
    (kahnStep ks (deg, q) t).2.Nodup ∧
      ∀ v ∈ (kahnStep ks (deg, q) t).2, (kahnStep ks (deg, q) t).1 v ≤ 0 := by
  by_cases ht : t ∈ ks
  · rw [kahnStep_eq_of_mem ht]
    by_cases hd : deg t - 1 = 0
    · have htq : t ∉ q := fun hmem => by have := hle t hmem; omega
      simp only [if_pos hd]
      constructor
      · exact List.nodup_append.mpr ⟨hnd, List.nodup_singleton t,
          fun a ha hb => by rw [List.mem_singleton] at hb; exact htq (hb ▸ ha)⟩
      · intro v hv
        rcases List.mem_append.mp hv with hvq | hvt
        · have hvnt : v ≠ t := fun he => htq (he ▸ hvq)
          simpa [hvnt] using hle v hvq
        · rw [List.mem_singleton] at hvt
          subst hvt
          simpa using le_of_eq hd
    · simp only [if_neg hd]
      refine ⟨hnd, fun v hv => ?_⟩
      by_cases hvt : v = t
      · subst hvt
        have := hle v hv
        simp only [if_pos rfl]
        omega
      · simpa [hvt] using hle v hv
  · rw [kahnStep_eq_of_not_mem ht]
    exact ⟨hnd, hle⟩

theorem kahnFold_pre (ks : List String) : ∀ (ts : List String) (deg : String → Int)
    (q : List String), q.Nodup → (∀ v ∈ q, deg v ≤ 0) →
    (ts.foldl (kahnStep ks) (deg, q)).2.Nodup ∧
      ∀ v ∈ (ts.foldl (kahnStep ks) (deg, q)).2,
        (ts.foldl (kahnStep ks) (deg, q)).1 v ≤ 0 := by
  intro ts
  induction ts with
  | nil => intro deg q h1 h2; exact ⟨h1, h2⟩
  | cons t rest ih =>
    intro deg q h1 h2
    rw [List.foldl_cons]
    obtain ⟨h1', h2'⟩ := @kahnStep_pre ks _ _ t h1 h2
    exact ih _ _ h1' h2'

theorem kahnFold_mem (ks : List String) : ∀ (ts : List String) (deg : String → Int)
    (q : List String), q.Nodup → (∀ v ∈ q, deg v ≤ 0) → ∀ v,
    (v ∈ (ts.foldl (kahnStep ks) (deg, q)).2 ↔
      v ∈ q ∨ (v ∈ ks ∧ 0 < deg v ∧ (ts.foldl (kahnStep ks) (deg, q)).1 v ≤ 0)) := by
  intro ts
  induction ts with
  | nil =>
    intro deg q h1 h2 v
    simp only [List.foldl_nil]
    constructor
    · intro h; exact .inl h
    · rintro (h | ⟨_, hpos, hle⟩)
      · exact h
      · omega
  | cons t rest ih =>
    intro deg q h1 h2 v
    rw [List.foldl_cons]
    by_cases ht : t ∈ ks
    · rw [kahnStep_eq_of_mem ht]
      by_cases hd : deg t - 1 = 0
      · simp only [if_pos hd]
        have htq : t ∉ q := by
          intro hmem
          have := h2 t hmem
          omega
        have h1' : (q ++ [t]).Nodup := List.nodup_append.mpr ⟨h1, List.nodup_singleton t,
          fun a ha hb => by rw [List.mem_singleton] at hb; exact htq (hb ▸ ha)⟩
        have h2' : ∀ w ∈ q ++ [t], (fun x => if x = t then deg t - 1 else deg x) w ≤ 0 := by
          intro w hw
          rcases List.mem_append.mp hw with hwq | hwt
          · have hwnt : w ≠ t := fun he => htq (he ▸ hwq)
            simpa [hwnt] using h2 w hwq
          · rw [List.mem_singleton] at hwt
            subst hwt
            simpa using le_of_eq hd
        rw [ih _ _ h1' h2' v]
        constructor
        · rintro (hvq | ⟨hk, hpos, hle⟩)
          · rcases List.mem_append.mp hvq with h | h
            · exact .inl h
            · rw [List.mem_singleton] at h
              subst h
              refine .inr ⟨ht, by omega, ?_⟩
              refine le_trans (kahnFold_fst_le_start ks rest _ _ _) ?_
              rw [if_pos rfl]
              omega
          · exact .inr ⟨hk, by
              by_cases hvt : v = t
              · subst hvt; omega
              · simpa [hvt] using hpos, hle⟩
        · rintro (hvq | ⟨hk, hpos, hle⟩)
          · exact .inl (List.mem_append.mpr (.inl hvq))
          · by_cases hvt : v = t
            · subst hvt
              exact .inl (List.mem_append.mpr (.inr (List.mem_singleton.mpr rfl)))
            · exact .inr ⟨hk, by simpa [hvt] using hpos, hle⟩
      · simp only [if_neg hd]
        have h2' : ∀ w ∈ q, (fun x => if x = t then deg t - 1 else deg x) w ≤ 0 := by
          intro w hw
          by_cases hwt : w = t
          · subst hwt
            have := h2 w hw
            simp only [if_pos rfl]
            omega
          · simpa [hwt] using h2 w hw
        rw [ih _ _ h1 h2' v]
        by_cases hvt : v = t
        · subst hvt
          constructor
          · rintro (hvq | ⟨hk, hpos, hle⟩)
            · exact .inl hvq
            · simp only [if_pos rfl] at hpos
              exact .inr ⟨hk, by omega, hle⟩
          · rintro (hvq | ⟨hk, hpos, hle⟩)
            · exact .inl hvq
            · refine .inr ⟨hk, ?_, hle⟩
              simp only [if_pos rfl]
              omega
        · simp only [if_neg hvt]
    · rw [kahnStep_eq_of_not_mem ht]
      exact ih _ _ h1 h2 v

theorem count_map_target (l : List Conn) (s v : String) :
    ((l.filter (fun c => c.source = s)).map (fun c => c.target)).count v
      = (l.filter (fun c => c.target = v)).countP (fun c => decide (c.source = s)) := by
  induction l with
  | nil => rfl
  | cons c rest ih =>
    by_cases hs : c.source = s <;> by_cases ht : c.target = v <;>
      simp [List.filter_cons, hs, ht, List.count_cons, List.countP_cons, ih]

theorem countP_or_split {α : Type} (l : List α) (p q : α → Bool)
    (h : ∀ a ∈ l, ¬(p a = true ∧ q a = true)) :
    l.countP (fun a => p a || q a) = l.countP p + l.countP q := by
  induction l with
  | nil => rfl
  | cons a rest ih =>
    have hrest : ∀ b ∈ rest, ¬(p b = true ∧ q b = true) := fun b hb => h b (.tail _ hb)
    by_cases hp : p a = true <;> by_cases hq : q a = true
    · exact absurd ⟨hp, hq⟩ (h a (.head _))
    all_goals
      simp only [Bool.not_eq_true] at hp hq
      simp [List.countP_cons, hp, hq, ih hrest]
    all_goals omega

theorem cntFrom_nil (g : Graph) (v : String) : cntFrom g [] v = 0 := by
  simp [cntFrom]

theorem cntFrom_le (g : Graph) (S : List String) (v : String) :
    cntFrom g S v ≤ (targeting g v).length :=
  List.countP_le_length _

theorem cntFrom_cons (g : Graph) {s : String} {S : List String} (hs : s ∉ S) (v : String) :
    cntFrom g (s :: S) v
      = (targeting g v).countP (fun c => decide (c.source = s)) + cntFrom g S v := by
  unfold cntFrom
  have hpt : ∀ c ∈ targeting g v,
      (decide (c.source ∈ s :: S) = true
        ↔ (decide (c.source = s) || decide (c.source ∈ S)) = true) := by
    intro c _
    by_cases h1 : c.source = s <;> by_cases h2 : c.source ∈ S <;> simp [h1, h2]
  rw [List.countP_congr hpt]
  refine countP_or_split _ _ _ ?_
  rintro c _ ⟨h1, h2⟩
  rw [decide_eq_true_eq] at h1 h2
  exact hs (h1 ▸ h2)

theorem cntFrom_append (g : Graph) : ∀ {A : List String} {B : List String},
    (A ++ B).Nodup → ∀ v, cntFrom g (A ++ B) v = cntFrom g A v + cntFrom g B v := by
  intro A
  induction A with
  | nil => intro B _ v; simp [cntFrom_nil]
  | cons a A ih =>
    intro B h v
    rw [List.cons_append] at h
    have ha : a ∉ A ++ B := (List.nodup_cons.mp h).1
    have h' := (List.nodup_cons.mp h).2
    rw [List.cons_append, cntFrom_cons g ha, cntFrom_cons g
      (fun hm => ha (List.mem_append.mpr (.inl hm))), ih h']
    omega

theorem count_flatMap_children (g : Graph) : ∀ (S : List String), S.Nodup → ∀ v,
    (S.flatMap (children g)).count v = cntFrom g S v := by
  intro S
  induction S with
  | nil => intro _ v; simp [cntFrom_nil]
  | cons s S ih =>
    intro hnd v
    have hs : s ∉ S := (List.nodup_cons.mp hnd).1
    have hnd' := (List.nodup_cons.mp hnd).2
    rw [List.flatMap_cons, List.count_append, ih hnd' v, cntFrom_cons g hs v]
    congr 1
    exact count_map_target (validConns g) s v

theorem KInv.queue_sources {g : Graph} {levels : List (List String)} {queue : List String}
    {deg : String → Int} (h : KInv g levels queue deg) :
    ∀ v ∈ queue, ∀ c ∈ targeting g v, c.source ∈ levels.flatten := by
  intro v hv c hc
  have hmem : v ∈ levels.flatten ++ queue := List.mem_append.mpr (.inr hv)
  have hk := h.subK v hmem
  have hz := h.degZero v hmem
  have he := h.degEq v hk
  have hle := cntFrom_le g levels.flatten v
  have hfull : cntFrom g levels.flatten v = (targeting g v).length := by
    unfold inDeg0 at he
    omega
  have hall := List.countP_eq_length.mp hfull
  simpa using hall c hc

theorem processLevel_eq (g : Graph) : ∀ (lvl : List String)
    (st : (String → Int) × List String),
    processLevel g st lvl = (lvl.flatMap (children g)).foldl (kahnStep (keys g)) st := by
  intro lvl
  induction lvl with
  | nil => intro st; rfl
  | cons s rest ih =>
    intro st
    simp only [processLevel, List.foldl_cons, List.flatMap_cons, List.foldl_append]
    exact ih _

theorem round_inv {g : Graph} {levels : List (List String)} {queue : List String}
    {deg : String → Int} (h : KInv g levels queue deg) :
    KInv g (levels ++ [queue]) (processLevel g (deg, []) queue).2
      (processLevel g (deg, []) queue).1 := by
  obtain ⟨hndP, hndQ, hdisjPQ⟩ := List.nodup_append.mp h.nodup
  rw [processLevel_eq]
  have hflat : (levels ++ [queue]).flatten = levels.flatten ++ queue := by simp
  set F := (queue.flatMap (children g)).foldl (kahnStep (keys g)) (deg, []) with hFdef
  have hpre := kahnFold_pre (keys g) (queue.flatMap (children g)) deg []
    List.nodup_nil (fun v hv => absurd hv (List.not_mem_nil v))
  have hmem0 := kahnFold_mem (keys g) (queue.flatMap (children g)) deg []
    List.nodup_nil (fun v hv => absurd hv (List.not_mem_nil v))
  have hmem : ∀ v, v ∈ F.2 ↔ (v ∈ keys g ∧ 0 < deg v ∧ F.1 v ≤ 0) := by
    intro v
    rw [← hFdef] at hmem0
    rw [hmem0 v]
    simp
  have hcnt : ∀ v, (queue.flatMap (children g)).count v = cntFrom g queue v :=
    count_flatMap_children g queue hndQ
  have hfst : ∀ v, F.1 v = deg v - (if v ∈ keys g then ((cntFrom g queue v : Nat) : Int) else 0) := by
    intro v
    rw [hFdef, kahnFold_fst, hcnt]
  have haux : ∀ v ∈ keys g, F.1 v = inDeg0 g v - (cntFrom g (levels.flatten ++ queue) v : Int) := by
    intro v hk
    rw [hfst v, if_pos hk, h.degEq v hk, cntFrom_append g h.nodup v]
    push_cast
    ring
  have hge : ∀ v ∈ keys g, 0 ≤ F.1 v := by
    intro v hk
    rw [haux v hk]
    have hle := cntFrom_le g (levels.flatten ++ queue) v
    unfold inDeg0
    omega
  have hdz : ∀ v ∈ levels.flatten ++ queue, F.1 v = 0 := by
    intro v hv
    have hk := h.subK v hv
    have hz := h.degZero v hv
    have h1 := hfst v
    rw [if_pos hk, hz] at h1
    have h2 := hge v hk
    have h3 : (0 : Int) ≤ ((cntFrom g queue v : Nat) : Int) := Int.natCast_nonneg _
    omega
  refine ⟨?_, ?_, ?_, ?_, ?_, ?_⟩
  · -- nodup
    rw [hflat]
    refine List.nodup_append.mpr ⟨h.nodup, hpre.1, ?_⟩
    intro a ha hb
    have hz := h.degZero a ha
    have := (hmem a).mp hb
    omega
  · -- subK
    rw [hflat]
    intro v hv
    rcases List.mem_append.mp hv with hv | hv
    · exact h.subK v hv
    · exact ((hmem v).mp hv).1
  · -- degEq
    intro v hk
    rw [hflat]
    exact haux v hk
  · -- degZero
    rw [hflat]
    intro v hv
    rcases List.mem_append.mp hv with hv | hv
    · exact hdz v hv
    · exact le_antisymm (((hmem v).mp hv).2.2) (hge v (((hmem v).mp hv).1))
  · -- freshNZ
    rw [hflat]
    intro v hk hnv hz0
    have hnq : v ∉ F.2 := fun hq => hnv (List.mem_append.mpr (.inr hq))
    have hnpq : v ∉ levels.flatten ++ queue := fun hp =>
      hnv (List.mem_append.mpr (.inl hp))
    have hdnz := h.freshNZ v hk hnpq
    have : ¬(v ∈ keys g ∧ 0 < deg v ∧ F.1 v ≤ 0) := fun hc => hnq ((hmem v).mpr hc)
    have hdge : 0 ≤ deg v := by
      have := h.degEq v hk
      have hle := cntFrom_le g levels.flatten v
      unfold inDeg0 at this
      omega
    have hdpos : 0 < deg v := by omega
    exact this ⟨hk, hdpos, le_of_eq hz0⟩
  · -- lvlStruct
    intro i v hv c hc
    rcases Nat.lt_trichotomy i levels.length with hi | hi | hi
    · have hget : (levels ++ [queue]).getD i [] = levels.getD i [] := by
        rw [List.getD_eq_getElem?_getD, List.getD_eq_getElem?_getD,
          List.getElem?_append_left hi]
      rw [hget] at hv
      have htake : (levels ++ [queue]).take i = levels.take i := by
        exact List.take_append_of_le_length (le_of_lt hi)
      rw [htake]
      exact h.lvlStruct i v hv c hc
    · subst hi
      have hget : (levels ++ [queue]).getD levels.length [] = queue := by
        rw [List.getD_eq_getElem?_getD, List.getElem?_append_right (le_refl _)]
        simp
      rw [hget] at hv
      have htake : (levels ++ [queue]).take levels.length = levels := List.take_left _ _
      rw [htake]
      exact h.queue_sources v hv c hc
    · have hget : (levels ++ [queue]).getD i [] = [] := by
        rw [List.getD_eq_getElem?_getD, List.getElem?_append_right (le_of_lt hi)]
        have h1 : ([queue] : List (List String)).length ≤ i - levels.length := by
          simp
          omega
        rw [List.getElem?_eq_none h1]
        rfl
      rw [hget] at hv
      exact absurd hv (List.not_mem_nil v)

theorem kinv_init (g : Graph) :
    KInv g [] ((keys g).filter (fun n => inDeg0 g n = 0)) (inDeg0 g) := by
  refine ⟨?_, ?_, ?_, ?_, ?_, ?_⟩
  · simpa using (nodup_dedupFirst (nodeIds g)).filter _
  · intro v hv
    simp only [List.flatten_nil, List.nil_append] at hv
    exact (List.mem_filter.mp hv).1
  · intro v _
    simp [cntFrom_nil]
  · intro v hv
    simp only [List.flatten_nil, List.nil_append] at hv
    have := (List.mem_filter.mp hv).2
    simpa using this
  · intro v hk hnv hz
    apply hnv
    simp only [List.flatten_nil, List.nil_append]
    exact List.mem_filter.mpr ⟨hk, by simpa using hz⟩
  · intro i v hv
    simp at hv

theorem kahnLoop_spec (g : Graph) : ∀ (fuel : Nat) (queue : List String)
    (deg : String → Int) (levels : List (List String)), KInv g levels queue deg →
    ∃ queue' deg',
      KInv g (kahnLoop g fuel queue deg levels levels.flatten).1 queue' deg' ∧
      (kahnLoop g fuel queue deg levels levels.flatten).2
        = (kahnLoop g fuel queue deg levels levels.flatten).1.flatten := by
  intro fuel
  induction fuel with
  | zero =>
    intro queue deg levels h
    exact ⟨queue, deg, h, rfl⟩
  | succ fuel ih =>
    intro queue deg levels h
    by_cases hq : queue.isEmpty = true
    · have hred : kahnLoop g (fuel + 1) queue deg levels levels.flatten
          = (levels, levels.flatten) := by
        simp only [kahnLoop, hq, if_true]
      rw [hred]
      exact ⟨queue, deg, h, rfl⟩
    · have hq' : queue.isEmpty = false := by simpa using hq
      have hred : kahnLoop g (fuel + 1) queue deg levels levels.flatten
          = kahnLoop g fuel (processLevel g (deg, []) queue).2
              (processLevel g (deg, []) queue).1 (levels ++ [queue])
              (levels.flatten ++ queue) := by
        simp only [kahnLoop, hq']
        simp
      rw [hred]
      have hres := ih _ _ (levels ++ [queue]) (round_inv h)
      rw [show (levels ++ [queue]).flatten = levels.flatten ++ queue from by simp] at hres
      exact hres

theorem processed_facts {g : Graph} {levels : List (List String)} {queue : List String}
    {deg : String → Int} (hinv : KInv g levels queue deg)
    (hlen : (dedupFirst levels.flatten).length = g.nodes.length) :
    levels.flatten.Nodup ∧ (nodeIds g).Nodup ∧
      (∀ v, v ∈ levels.flatten ↔ v ∈ nodeIds g) := by
  have hndJ : levels.flatten.Nodup := (List.nodup_append.mp hinv.nodup).1
  have hdd : dedupFirst levels.flatten = levels.flatten := dedupFirst_eq_self hndJ
  rw [hdd] at hlen
  have hsub : levels.flatten ⊆ keys g := fun v hv =>
    hinv.subK v (List.mem_append.mpr (.inl hv))
  have hsubperm : levels.flatten.Subperm (keys g) := List.subperm_of_subset hndJ hsub
  have hle1 : levels.flatten.length ≤ (keys g).length := hsubperm.length_le
  have hle2 : (keys g).length ≤ (nodeIds g).length := dedupFirst_length_le _
  have hnlen : (nodeIds g).length = g.nodes.length := by simp [nodeIds]
  have heq2 : (keys g).length = (nodeIds g).length := by omega
  have hndN : (nodeIds g).Nodup := nodup_of_dedupFirst_length heq2
  have hperm : levels.flatten.Perm (keys g) := by
    refine hsubperm.perm_of_length_le ?_
    omega
  refine ⟨hndJ, hndN, fun v => ?_⟩
  rw [hperm.mem_iff]
  exact mem_dedupFirst

theorem mem_flatten_of_mem_getD {α : Type} {v : α} : ∀ {l : List (List α)} {i : Nat},
    v ∈ l.getD i [] → v ∈ l.flatten := by
  intro l
  induction l with
  | nil => intro i hv; cases i <;> simp at hv
  | cons a rest ih =>
    intro i hv
    cases i with
    | zero =>
      rw [List.getD_cons_zero] at hv
      exact List.mem_flatten.mpr ⟨a, List.mem_cons_self _ _, hv⟩
    | succ i =>
      rw [List.getD_cons_succ] at hv
      rw [List.flatten_cons, List.mem_append]
      exact .inr (ih hv)

theorem mem_flatten_idx {α : Type} {v : α} : ∀ {l : List (List α)}, v ∈ l.flatten →
    ∃ i, i < l.length ∧ v ∈ l.getD i [] := by
  intro l
  induction l with
  | nil => intro hv; simp at hv
  | cons a rest ih =>
    intro hv
    rw [List.flatten_cons, List.mem_append] at hv
    rcases hv with hv | hv
    · exact ⟨0, Nat.succ_pos _, by simpa using hv⟩
    · obtain ⟨i, hi, hmem⟩ := ih hv
      exact ⟨i + 1, Nat.succ_lt_succ hi, by simpa using hmem⟩

theorem mem_take_flatten_idx {α : Type} {v : α} : ∀ (j : Nat) (l : List (List α)),
    v ∈ (l.take j).flatten → ∃ i, i < j ∧ v ∈ l.getD i [] := by
  intro j
  induction j with
  | zero => intro l hv; simp at hv
  | succ j ih =>
    intro l hv
    cases l with
    | nil => simp at hv
    | cons a l =>
      rw [List.take_succ_cons, List.flatten_cons, List.mem_append] at hv
      rcases hv with hv | hv
      · exact ⟨0, Nat.succ_pos _, by simpa using hv⟩
      · obtain ⟨i, hi, hmem⟩ := ih l hv
        exact ⟨i + 1, Nat.succ_lt_succ hi, by simpa using hmem⟩

theorem findIdx_level : ∀ (levels : List (List String)), levels.flatten.Nodup →
    ∀ (i : Nat) (v : String), v ∈ levels.getD i [] →
      levels.findIdx (fun L => decide (v ∈ L)) = i := by
  intro levels
  induction levels with
  | nil => intro _ i v hv; cases i <;> simp at hv
  | cons a rest ih =>
    intro hnd i v hv
    rw [List.flatten_cons] at hnd
    obtain ⟨hna, hnr, hdisj⟩ := List.nodup_append.mp hnd
    cases i with
    | zero =>
      rw [List.getD_cons_zero] at hv
      rw [List.findIdx_cons]
      simp [hv]
    | succ i =>
      rw [List.getD_cons_succ] at hv
      have hvr : v ∈ rest.flatten := mem_flatten_of_mem_getD hv
      have hva : v ∉ a := fun hva => hdisj hva hvr
      have hpa : decide (v ∈ a) = false := by simpa using hva
      rw [List.findIdx_cons, hpa]
      simp [ih hnr i v hv]

theorem countP_levels_eq_one {v : String} : ∀ {levels : List (List String)},
    levels.flatten.count v = 1 → levels.countP (fun L => decide (v ∈ L)) = 1 := by
  intro levels
  induction levels with
  | nil => simp
  | cons a rest ih =>
    intro h
    rw [List.flatten_cons, List.count_append] at h
    rw [List.countP_cons]
    by_cases hva : v ∈ a
    · have hca : 1 ≤ a.count v := List.count_pos_iff.mpr hva
      have hcr : rest.flatten.count v = 0 := by omega
      have hz : rest.countP (fun L => decide (v ∈ L)) = 0 := by
        rw [List.countP_eq_zero]
        intro L hL
        simp only [decide_eq_true_eq]
        intro hvL
        have : 0 < rest.flatten.count v :=
          List.count_pos_iff.mpr (List.mem_flatten.mpr ⟨L, hL, hvL⟩)
        omega
      simp [hva, hz]
    · have hca : a.count v = 0 := List.count_eq_zero.mpr hva
      have hcr : rest.flatten.count v = 1 := by omega
      simp [hva, ih hcr]

theorem cycle_not_processed {g : Graph} {C : List String} (hcy : CycleSet g C)
    {levels : List (List String)} {queue : List String} {deg : String → Int}
    (hinv : KInv g levels queue deg) :
    ∀ v ∈ C, v ∉ levels.flatten ++ queue := by
  have hstep : ∀ i, ∀ v ∈ C, v ∉ (levels.take i).flatten := by
    intro i
    induction i with
    | zero => intro v _ hv; simp at hv
    | succ i ih =>
      intro v hvC hv
      rw [List.take_succ, List.flatten_append, List.mem_append] at hv
      rcases hv with hv | hv
      · exact ih v hvC hv
      · have hvi : v ∈ levels.getD i [] := by
          cases hgi : levels[i]? with
          | none => rw [hgi] at hv; simp at hv
          | some L =>
            rw [hgi] at hv
            simp only [Option.toList_some, List.flatten_cons, List.flatten_nil,
              List.append_nil] at hv
            rw [List.getD_eq_getElem?_getD, hgi]
            simpa using hv
        obtain ⟨u, huC, c, hcv, hsrc, htgt⟩ := hcy.2 v hvC
        have hct : c ∈ targeting g v := List.mem_filter.mpr ⟨hcv, by simp [htgt]⟩
        have hmem := hinv.lvlStruct i v hvi c hct
        rw [hsrc] at hmem
        exact ih u huC hmem
  have hflat : ∀ v ∈ C, v ∉ levels.flatten := by
    intro v hvC hv
    refine hstep levels.length v hvC ?_
    rw [List.take_length]
    exact hv
  intro v hvC hv
  rcases List.mem_append.mp hv with hv | hv
  · exact hflat v hvC hv
  · obtain ⟨u, huC, c, hcv, hsrc, htgt⟩ := hcy.2 v hvC
    have hct : c ∈ targeting g v := List.mem_filter.mpr ⟨hcv, by simp [htgt]⟩
    have hmem := hinv.queue_sources v hv c hct
    rw [hsrc] at hmem
    exact hflat u huC hmem

theorem topological_sort_eq (g : Graph) :
    topological_sort g =
      if ((keys g).filter (fun n => inDeg0 g n = 0)).isEmpty then
        .error "No starting nodes found (all nodes have dependencies)"
      else if (dedupFirst (kahnLoop g g.nodes.length
            ((keys g).filter (fun n => inDeg0 g n = 0)) (inDeg0 g) [] []).2).length
          ≠ g.nodes.length then
        .error "Cycle detected in workflow. Unprocessed nodes remain"
      else .ok (kahnLoop g g.nodes.length
            ((keys g).filter (fun n => inDeg0 g n = 0)) (inDeg0 g) [] []).1 := rfl

theorem topological_sort_ok_inv {g : Graph} {levels : List (List String)}
    (h : topological_sort g = .ok levels) :
    ∃ queue' deg', KInv g levels queue' deg' ∧
      (dedupFirst levels.flatten).length = g.nodes.length := by
  rw [topological_sort_eq] at h
  by_cases hq : ((keys g).filter (fun n => inDeg0 g n = 0)).isEmpty = true
  · rw [if_pos hq] at h
    exact absurd h (by simp)
  · rw [if_neg hq] at h
    obtain ⟨q', d', hinv, hproc⟩ := kahnLoop_spec g g.nodes.length
      ((keys g).filter (fun n => inDeg0 g n = 0)) (inDeg0 g) [] (kinv_init g)
    simp only [List.flatten_nil] at hinv hproc
    by_cases hc : (dedupFirst (kahnLoop g g.nodes.length
        ((keys g).filter (fun n => inDeg0 g n = 0)) (inDeg0 g) [] []).2).length
        = g.nodes.length
    · rw [if_neg (fun hne => hne hc)] at h
      have hlev : (kahnLoop g g.nodes.length
          ((keys g).filter (fun n => inDeg0 g n = 0)) (inDeg0 g) [] []).1 = levels := by
        injection h
      rw [hproc, hlev] at hc
      rw [hlev] at hinv
      exact ⟨q', d', hinv, hc⟩
    · rw [if_pos hc] at h
      exact absurd h (by simp)

theorem topological_sort_cycle {g : Graph} {C : List String} (hcy : CycleSet g C)
    (hCk : ∀ v ∈ C, v ∈ keys g) :
    ∃ msg, topological_sort g = .error msg := by
  by_cases hq : ((keys g).filter (fun n => inDeg0 g n = 0)).isEmpty = true
  · exact ⟨_, by rw [topological_sort_eq, if_pos hq]⟩
  · obtain ⟨q', d', hinv, hproc⟩ := kahnLoop_spec g g.nodes.length
      ((keys g).filter (fun n => inDeg0 g n = 0)) (inDeg0 g) [] (kinv_init g)
    simp only [List.flatten_nil] at hinv hproc
    have hne : (dedupFirst (kahnLoop g g.nodes.length
        ((keys g).filter (fun n => inDeg0 g n = 0)) (inDeg0 g) [] []).2).length
        ≠ g.nodes.length := by
      intro hlen
      rw [hproc] at hlen
      have facts := processed_facts hinv hlen
      obtain ⟨v, hvC⟩ := List.exists_mem_of_ne_nil C hcy.1
      have hvk : v ∈ nodeIds g := mem_dedupFirst.mp (hCk v hvC)
      have hvf := (facts.2.2 v).mpr hvk
      exact cycle_not_processed hcy hinv v hvC (List.mem_append.mpr (.inl hvf))
    exact ⟨_, by rw [topological_sort_eq, if_neg hq, if_pos hne]⟩

end DAGResolver

/-- C1 amended: the level invariant holds only on graphs whose node ids
are all truthy.  For every workflow graph with nonempty node ids, whenever
`DAGResolver.topological_sort` returns a level-grouped order, every
connection whose endpoints are nodes of the graph goes from a strictly
earlier level index to a strictly later one, and every node of the graph
appears in exactly one level (once in the flattened order, and in exactly
one level list).  A connection touching an empty-string node id is
silently dropped by the adjacency builder, and the level ordering can
fail for it (see the counterexample). -/
theorem C1_topological_sort_level_invariant {g : Graph} {levels : List (List String)}
    (hok : DAGResolver.topological_sort g = .ok levels)
    (hid : "" ∉ DAGResolver.nodeIds g) :
    (∀ c ∈ g.connections, c.source ∈ DAGResolver.nodeIds g →
      c.target ∈ DAGResolver.nodeIds g →
      levels.findIdx (fun L => decide (c.source ∈ L))
        < levels.findIdx (fun L => decide (c.target ∈ L)))
    ∧ (∀ v ∈ DAGResolver.nodeIds g, levels.flatten.count v = 1)
    ∧ (∀ v ∈ DAGResolver.nodeIds g, levels.countP (fun L => decide (v ∈ L)) = 1) := by
  obtain ⟨q', d', hinv, hlen⟩ := DAGResolver.topological_sort_ok_inv hok
  obtain ⟨hndJ, hndN, hmemiff⟩ := DAGResolver.processed_facts hinv hlen
  have hcount : ∀ v ∈ DAGResolver.nodeIds g, levels.flatten.count v = 1 := by
    intro v hv
    have h1 : v ∈ levels.flatten := (hmemiff v).mpr hv
    have hle := List.nodup_iff_count_le_one.mp hndJ v
    have hge := List.count_pos_iff.mpr h1
    omega
  refine ⟨?_, hcount, fun v hv => DAGResolver.countP_levels_eq_one (hcount v hv)⟩
  intro c hc hs ht
  have hsne : c.source ≠ "" := fun he => hid (he ▸ hs)
  have htne : c.target ≠ "" := fun he => hid (he ▸ ht)
  have hcv : c ∈ DAGResolver.validConns g :=
    List.mem_filter.mpr ⟨hc, by simp [hsne, htne]⟩
  have hct : c ∈ DAGResolver.targeting g c.target := List.mem_filter.mpr ⟨hcv, by simp⟩
  have hvt : c.target ∈ levels.flatten := (hmemiff _).mpr ht
  obtain ⟨j, hj, hjmem⟩ := DAGResolver.mem_flatten_idx hvt
  have hsrc := hinv.lvlStruct j c.target hjmem c hct
  obtain ⟨i, hij, himem⟩ := DAGResolver.mem_take_flatten_idx j levels hsrc
  rw [DAGResolver.findIdx_level levels hndJ i c.source himem,
    DAGResolver.findIdx_level levels hndJ j c.target hjmem]
  exact hij

/-- Witness for C1 at the diamond workflow. -/
theorem C1_topological_sort_level_invariant_witness :
    (∀ c ∈ diamondW.graph.connections, c.source ∈ DAGResolver.nodeIds diamondW.graph →
      c.target ∈ DAGResolver.nodeIds diamondW.graph →
      ([["n1"], ["n2", "n3"], ["n4"]] : List (List String)).findIdx
          (fun L => decide (c.source ∈ L))
        < ([["n1"], ["n2", "n3"], ["n4"]] : List (List String)).findIdx
          (fun L => decide (c.target ∈ L)))
    ∧ (∀ v ∈ DAGResolver.nodeIds diamondW.graph,
        ([["n1"], ["n2", "n3"], ["n4"]] : List (List String)).flatten.count v = 1)
    ∧ (∀ v ∈ DAGResolver.nodeIds diamondW.graph,
        ([["n1"], ["n2", "n3"], ["n4"]] : List (List String)).countP
          (fun L => decide (v ∈ L)) = 1) :=
  C1_topological_sort_level_invariant (by decide) (by decide)

/-- C8: cancelling an execution already in a terminal state (`completed`,
`failed` or `cancelled`) raises before any write: the returned state is the
input state, so status, counters, logs and every other field are unchanged. -/
theorem C8_cancel_terminal_frame (st : St) (executionId userId : Nat)
    (e : WorkflowExecution)
    (hfind : ExecutionService.get_execution st executionId userId = some e)
    (hterm : e.status = "completed" ∨ e.status = "failed" ∨ e.status = "cancelled") :
    ExecutionService.cancel_execution st executionId userId
      = .err st ("Cannot cancel execution with status: " ++ e.status) := by
  have hnotin : e.status ∉ (["pending", "running"] : List String) := by
    rcases hterm with h | h | h <;> simp [h]
  unfold ExecutionService.cancel_execution
  rw [hfind]
  exact if_pos hnotin

/-- Witness for C8 on a completed execution. -/
theorem C8_cancel_terminal_frame_witness :
    ExecutionService.cancel_execution terminalCancelSt 10 1
      = .err terminalCancelSt ("Cannot cancel execution with status: " ++ "completed") :=
  C8_cancel_terminal_frame terminalCancelSt 10 1
    { id := 10, workflow_id := 1, user_id := 1, status := "completed",
      total_nodes := 1, completed_nodes := 1 }
    (by decide) (.inl rfl)

/-- C9: `get_progress_percentage` is total: with `total_nodes = 0` it
returns exactly `0` whatever the status and counters (the division is
guarded), and with `total_nodes > 0` it returns
`completed_nodes / total_nodes * 100`. -/
theorem C9_progress_guarded (e : WorkflowExecution) :
    (e.total_nodes = 0 → e.get_progress_percentage = 0)
    ∧ (0 < e.total_nodes → e.get_progress_percentage
        = ((e.completed_nodes : Rat) / (e.total_nodes : Rat)) * 100) := by
  constructor
  · intro h
    simp [WorkflowExecution.get_progress_percentage, h]
  · intro h
    rw [WorkflowExecution.get_progress_percentage, if_neg (by omega)]

/-- Witness for C9: a completed zero-node execution reports 0 percent. -/
theorem C9_progress_guarded_witness :
    ({ id := 1, workflow_id := 1, user_id := 1, status := "completed",
        total_nodes := 0, completed_nodes := 0 } : WorkflowExecution).get_progress_percentage
      = 0 :=
  (C9_progress_guarded _).1 rfl

/-- C10: `can_execute_node` returns `True` for any id that is never the
target of a connection, including ids that are not nodes of the graph: such
an id has no discovered parents, and `all` over an empty dependency list is
`True`. -/
theorem C10_can_execute_node_nontarget (g : Graph) (nodeId : String)
    (completed : List String)
    (h : ∀ c ∈ g.connections, c.target ≠ nodeId) :
    DAGResolver.can_execute_node g nodeId completed = true := by
  unfold DAGResolver.can_execute_node
  have hdeps : DAGResolver.get_node_dependencies g nodeId = [] := by
    unfold DAGResolver.get_node_dependencies
    rw [List.filter_eq_nil_iff]
    intro s hs
    simp only [decide_eq_true_eq]
    intro hmem
    unfold DAGResolver.children at hmem
    rw [List.mem_map] at hmem
    obtain ⟨c, hcf, htgt⟩ := hmem
    have hcconn : c ∈ g.connections := (List.mem_filter.mp (List.mem_filter.mp hcf).1).1
    exact h c hcconn htgt
  rw [hdeps]
  rfl

/-- Witness for C10: an id absent from the diamond graph is executable. -/
theorem C10_can_execute_node_nontarget_witness :
    DAGResolver.can_execute_node diamondW.graph "ghost" [] = true :=
  C10_can_execute_node_nontarget diamondW.graph "ghost" [] (by decide)

theorem checkConnRefs_none {nodeIds : List String} : ∀ {conns : List Conn},
    checkConnRefs nodeIds conns = none →
    ∀ c ∈ conns, c.source ∈ nodeIds ∧ c.target ∈ nodeIds := by
  intro conns
  induction conns with
  | nil => intro _ c hc; cases hc
  | cons c0 rest ih =>
    intro h c hc
    unfold checkConnRefs at h
    by_cases hs : c0.source ∉ nodeIds
    · rw [if_pos hs] at h; cases h
    · rw [if_neg hs] at h
      by_cases ht : c0.target ∉ nodeIds
      · rw [if_pos ht] at h; cases h
      · rw [if_neg ht] at h
        push_neg at hs ht
        rcases List.mem_cons.mp hc with rfl | hc2
        · exact ⟨hs, ht⟩
        · exact ih h c hc2

theorem validate_structure_true {w : Workflow} {o : Option String}
    (h : w.validate_structure = (true, o)) :
    ∀ c ∈ w.connections, c.source ∈ w.nodes.map (fun n => n.id)
      ∧ c.target ∈ w.nodes.map (fun n => n.id) := by
  unfold Workflow.validate_structure at h
  by_cases hd : (w.nodes.map (fun n => n.id)).length
      ≠ (dedupFirst (w.nodes.map (fun n => n.id))).length
  · rw [if_pos hd] at h
    simp at h
  · rw [if_neg hd] at h
    cases hc : checkConnRefs (w.nodes.map (fun n => n.id)) w.connections with
    | some e => rw [hc] at h; simp at h
    | none => exact checkConnRefs_none hc

/-- C2 amended: if the stored workflow's connections contain a cycle
lying entirely in the valid connections — a non-empty set of ids each
with an in-edge from inside the set through a connection both of whose
endpoints are truthy — `create_execution` raises synchronously and
returns with the store exactly as it was: the structural validation and
the resolver run before the first `db.add`, so no `WorkflowExecution`
row and no `NodeExecution` row is created.  A cycle routed through an
empty-string node id is invisible to the resolver (its edges are dropped
by the falsy check) and rows are materialized (see the counterexample). -/
theorem C2_create_execution_cycle_atomic (st : St) (workflowId userId : Nat)
    (data : ExecutionCreate) (w : Workflow) (C : List String)
    (hw : st.workflows.find? (fun w0 => w0.id == workflowId && w0.user_id == userId)
      = some w)
    (hcy : DAGResolver.CycleSet w.graph C) :
    ∃ msg, ExecutionService.create_execution st workflowId userId data = .err st msg := by
  unfold ExecutionService.create_execution
  rw [hw]
  simp only []
  cases hv : w.validate_structure with
  | mk b o =>
    cases b with
    | false => exact ⟨_, rfl⟩
    | true =>
      have hvt := validate_structure_true hv
      have hCk : ∀ v ∈ C, v ∈ DAGResolver.keys w.graph := by
        intro v hvC
        obtain ⟨u, huC, c, hcv, hsrc, htgt⟩ := hcy.2 v hvC
        have hcc : c ∈ w.connections := (List.mem_filter.mp hcv).1
        have hmem := (hvt c hcc).2
        rw [htgt] at hmem
        exact mem_dedupFirst.mpr hmem
      obtain ⟨msg, hmsg⟩ := DAGResolver.topological_sort_cycle hcy hCk
      have hge : DAGResolver.get_execution_order w.graph = .error msg := by
        unfold DAGResolver.get_execution_order
        rw [hmsg]
      refine ⟨"Workflow validation failed: " ++ msg, ?_⟩
      simp only []
      rw [hge]

/-- Witness for C2 at the two-node cyclic workflow. -/
theorem C2_create_execution_cycle_atomic_witness :
    ∃ msg, ExecutionService.create_execution cyclicSt 2 1 {} = .err cyclicSt msg :=
  C2_create_execution_cycle_atomic cyclicSt 2 1 {} cyclicW ["a", "b"]
    (by decide) (by decide)

@[simp] theorem updExec_workflows (st : St) (eid : Nat)
    (f : WorkflowExecution → WorkflowExecution) :
    (st.updExec eid f).workflows = st.workflows := rfl

@[simp] theorem updNode_workflows (st : St) (nid : Nat)
    (f : NodeExecution → NodeExecution) :
    (st.updNode nid f).workflows = st.workflows := rfl

@[simp] theorem push_workflows (st : St) (ev : Event) :
    (st.push ev).workflows = st.workflows := rfl

@[simp] theorem broadcast_execution_update_workflows (st : St) (e : WorkflowExecution)
    (p : Rat) (c : Option String) :
    (broadcast_execution_update st e p c).workflows = st.workflows := rfl

@[simp] theorem broadcast_node_update_workflows (st : St) (eid : Nat)
    (n : NodeExecution) (m : String) :
    (broadcast_node_update st eid n m).workflows = st.workflows := rfl

@[simp] theorem updExec_events (st : St) (eid : Nat)
    (f : WorkflowExecution → WorkflowExecution) :
    (st.updExec eid f).events = st.events := rfl

@[simp] theorem updNode_events (st : St) (nid : Nat)
    (f : NodeExecution → NodeExecution) :
    (st.updNode nid f).events = st.events := rfl

@[simp] theorem push_events (st : St) (ev : Event) :
    (st.push ev).events = st.events ++ [ev] := rfl

@[simp] theorem updExec_nodeExecutions (st : St) (eid : Nat)
    (f : WorkflowExecution → WorkflowExecution) :
    (st.updExec eid f).nodeExecutions = st.nodeExecutions := rfl

@[simp] theorem push_nodeExecutions (st : St) (ev : Event) :
    (st.push ev).nodeExecutions = st.nodeExecutions := rfl

@[simp] theorem updNode_nodeExecutions (st : St) (nid : Nat)
    (f : NodeExecution → NodeExecution) :
    (st.updNode nid f).nodeExecutions
      = st.nodeExecutions.map (fun n => if n.id = nid then f n else n) := rfl

/-- C3 demonstration of the code bug: on the empty graph the resolver
raises the "No starting nodes found" error instead of returning an empty
level list, and executing a zero-node workflow therefore re-raises out of
the level loop and ends in status `failed`, not `completed`. -/
theorem C3_empty_graph_raises :
    DAGResolver.topological_sort ⟨[], []⟩
        = .error "No starting nodes found (all nodes have dependencies)"
    ∧ ((ExecutionService.execute_workflow emptyWfSt 10 1).errState.map
        (fun s => s.executions.map (fun e => e.status))) = some ["failed"]
    ∧ (ExecutionService.execute_workflow emptyWfSt 10 1).okState = none := by
  refine ⟨rfl, ?_, ?_⟩ <;> decide

/-- C4 counterexample: dispatching the execution `10`, already in the
terminal state `failed`, does not fail with an IllegalTransition-like
error: the call returns normally, re-runs the workflow, and overwrites the
terminal state with `completed`. -/
theorem C4_counterexample_second_dispatch :
    redispatchSt.executions.map (fun e => e.status) = ["failed"]
    ∧ ((ExecutionService.execute_workflow redispatchSt 10 1).okState.map
        (fun s => s.executions.map (fun e => e.status))) = some ["completed"]
    ∧ (ExecutionService.execute_workflow redispatchSt 10 1).errState = none := by
  refine ⟨rfl, ?_, ?_⟩ <;> decide

/-- C4 amended: `execute_workflow` checks no prior status.  For an
execution found in any status whatsoever — including a terminal one on a
second dispatch — with its workflow present and acyclic, the call proceeds
through the `running` transition and returns normally with a `completed`
report. -/
theorem C4_amended_no_transition_guard (st : St) (executionId userId : Nat)
    (e : WorkflowExecution) (wf : Workflow) (levels : List (List String))
    (hfe : ExecutionService.get_execution st executionId userId = some e)
    (hwf : st.workflows.find? (fun w => w.id == e.workflow_id) = some wf)
    (hsort : DAGResolver.topological_sort wf.graph = .ok levels) :
    ∃ st2 d, ExecutionService.execute_workflow st executionId userId
      = .ok st2 { status := "completed", execution_id := executionId, duration := d } := by
  unfold ExecutionService.execute_workflow
  rw [hfe]
  simp only [broadcast_execution_update_workflows, updExec_workflows]
  rw [hwf]
  simp only []
  rw [hsort]
  exact ⟨_, _, rfl⟩

/-- Witness for the amended C4 at the redispatch fixture. -/
theorem C4_amended_no_transition_guard_witness :
    ∃ st2 d, ExecutionService.execute_workflow redispatchSt 10 1
      = .ok st2 { status := "completed", execution_id := 10, duration := d } :=
  C4_amended_no_transition_guard redispatchSt 10 1
    { id := 10, workflow_id := 1, user_id := 1, status := "failed",
      total_nodes := 1, completed_nodes := 0, failed_nodes := 1 }
    { id := 1, user_id := 1, nodes := [⟨"n1", some "action", some "n1"⟩],
      connections := [] }
    [["n1"]] (by decide) (by decide) (by decide)

/-- C6 counterexample: `retry_node_execution` called by user 2 on a node
execution owned by user 1 does not return a not-found-like signal: it
succeeds, bumps `retry_count` and re-executes the node. -/
theorem C6_counterexample_foreign_retry :
    foreignRetrySt.nodeExecutions.map (fun n => (n.user_id, n.status, n.retry_count))
        = [(1, "failed", 0)]
    ∧ ((ExecutionService.retry_node_execution foreignRetrySt 20 2).okState.map
        (fun s => s.nodeExecutions.map (fun n => (n.status, n.retry_count))))
        = some [("completed", 1)]
    ∧ (ExecutionService.retry_node_execution foreignRetrySt 20 2).errState = none := by
  refine ⟨rfl, ?_, ?_⟩ <;> decide

/-- C6 amended: ownership is enforced only on the workflow-execution
lookups: `get_execution` filters by `user_id` (a mismatched caller gets
`none`), but `execute_node` and `retry_node_execution` fetch the node row
by primary key alone and ignore the caller's `user_id` entirely — their
results are identical for any two callers. -/
theorem C6_amended_ownership (st : St) (executionId nodeExecutionId
    workflowExecutionId userId u1 u2 : Nat) (e : WorkflowExecution) :
    (ExecutionService.get_execution st executionId userId = some e → e.user_id = userId)
    ∧ ExecutionService.execute_node st nodeExecutionId workflowExecutionId u1
        = ExecutionService.execute_node st nodeExecutionId workflowExecutionId u2
    ∧ ExecutionService.retry_node_execution st nodeExecutionId u1
        = ExecutionService.retry_node_execution st nodeExecutionId u2 := by
  refine ⟨?_, rfl, rfl⟩
  intro hfe
  unfold ExecutionService.get_execution at hfe
  have h := List.find?_some hfe
  simp only [Bool.and_eq_true, beq_iff_eq] at h
  exact h.2

theorem sort_ok_count {g : Graph} {levels : List (List String)}
    (hok : DAGResolver.topological_sort g = .ok levels) :
    ∀ v ∈ DAGResolver.nodeIds g, levels.flatten.count v = 1 := by
  obtain ⟨q', d', hinv, hlen⟩ := DAGResolver.topological_sort_ok_inv hok
  obtain ⟨hndJ, hndN, hmemiff⟩ := DAGResolver.processed_facts hinv hlen
  intro v hv
  have h1 : v ∈ levels.flatten := (hmemiff v).mpr hv
  have hle := List.nodup_iff_count_le_one.mp hndJ v
  have hge := List.count_pos_iff.mpr h1
  omega

theorem sort_ok_mem {g : Graph} {levels : List (List String)}
    (hok : DAGResolver.topological_sort g = .ok levels) :
    ∀ v, v ∈ levels.flatten ↔ v ∈ DAGResolver.nodeIds g := by
  obtain ⟨q', d', hinv, hlen⟩ := DAGResolver.topological_sort_ok_inv hok
  exact (DAGResolver.processed_facts hinv hlen).2.2

theorem get_node_by_id_isSome {w : Workflow} {v : String}
    (hv : v ∈ w.nodes.map (fun n => n.id)) :
    (w.get_node_by_id v).isSome = true := by
  rw [Workflow.get_node_by_id, List.find?_isSome]
  obtain ⟨n, hn, hid⟩ := List.mem_map.mp hv
  exact ⟨n, hn, by simp [hid]⟩

theorem snd_mem_of_mem_enumFrom {α : Type} : ∀ {l : List α} {n : Nat} {p : Nat × α},
    p ∈ l.enumFrom n → p.2 ∈ l := by
  intro l
  induction l with
  | nil => intro n p hp; cases hp
  | cons a rest ih =>
    intro n p hp
    rw [List.enumFrom] at hp
    rcases List.mem_cons.mp hp with rfl | hp2
    · exact List.mem_cons_self _ _
    · exact List.mem_cons.mpr (.inr (ih hp2))

theorem flatMap_enumFrom_snd_map {α : Type} : ∀ (l : List (List α)) (n : Nat),
    ((l.enumFrom n).flatMap (fun p => p.2.map (fun x => (p.1, x)))).map
        (fun p => p.2)
      = l.flatten := by
  intro l
  induction l with
  | nil => intro n; rfl
  | cons a rest ih =>
    intro n
    rw [List.enumFrom, List.flatMap_cons, List.map_append, List.map_map,
      ih (n + 1), List.flatten_cons]
    congr 1
    simp [Function.comp]

/-- The node-creation loop of `create_execution` appends exactly one row
per plan entry whose node id resolves, with the fields the source writes.
Stated for an entry list in which every id resolves. -/
theorem createRows_spec (workflowId userId execId : Nat) (w : Workflow) :
    ∀ (eoe : List (Nat × (Nat × String))) (st0 : St),
    (∀ p ∈ eoe, (w.get_node_by_id p.2.2).isSome = true) →
    ∃ R : List NodeExecution,
      (eoe.foldl (fun acc p =>
          ExecutionService.createNodeRow acc workflowId userId execId w p)
        st0).nodeExecutions = st0.nodeExecutions ++ R ∧
      R.length = eoe.length ∧
      ∀ i (hi : i < R.length) (he : i < eoe.length),
        (R.get ⟨i, hi⟩).status = "pending"
        ∧ (R.get ⟨i, hi⟩).workflow_execution_id = execId
        ∧ (R.get ⟨i, hi⟩).user_id = userId
        ∧ (R.get ⟨i, hi⟩).node_id = (eoe.get ⟨i, he⟩).2.2
        ∧ (R.get ⟨i, hi⟩).execution_order = (eoe.get ⟨i, he⟩).1
        ∧ (R.get ⟨i, hi⟩).parent_node_ids
            = DAGResolver.get_node_dependencies w.graph ((eoe.get ⟨i, he⟩).2.2)
        ∧ (R.get ⟨i, hi⟩).child_node_ids
            = DAGResolver.get_node_dependents w.graph ((eoe.get ⟨i, he⟩).2.2) := by
  intro eoe
  induction eoe with
  | nil =>
    intro st0 _
    exact ⟨[], by simp, rfl, fun i hi => absurd hi (by simp)⟩
  | cons p rest ih =>
    intro st0 hall
    have hp := hall p (List.mem_cons_self _ _)
    obtain ⟨node, hnode⟩ := Option.isSome_iff_exists.mp hp
    have hrest : ∀ q ∈ rest, (w.get_node_by_id q.2.2).isSome = true :=
      fun q hq => hall q (List.mem_cons.mpr (.inr hq))
    rw [List.foldl_cons]
    have hstep : ExecutionService.createNodeRow st0 workflowId userId execId w p
        = { st0 with
            nodeExecutions := st0.nodeExecutions ++
              [{ id := st0.nextId
                 workflow_execution_id := execId
                 agent_id := (if node.type == some "agent" then
                     st0.agents.find? (fun a => a.workflow_id == workflowId
                       && a.node_id == p.2.2)
                   else none).map (fun a => a.id)
                 user_id := userId
                 node_id := p.2.2
                 node_name := node.name.getD ("Node " ++ p.2.2)
                 node_type := node.type.getD "unknown"
                 status := "pending"
                 execution_order := p.1
                 parent_node_ids := DAGResolver.get_node_dependencies w.graph p.2.2
                 child_node_ids := DAGResolver.get_node_dependents w.graph p.2.2
                 max_retries := 3 }]
            nextId := st0.nextId + 1 } := by
      unfold ExecutionService.createNodeRow
      rw [hnode]
    rw [hstep]
    obtain ⟨R2, hR2, hR2len, hR2i⟩ := ih _ hrest
    refine ⟨({ id := st0.nextId
               workflow_execution_id := execId
               agent_id := (if node.type == some "agent" then
                   st0.agents.find? (fun a => a.workflow_id == workflowId
                     && a.node_id == p.2.2)
                 else none).map (fun a => a.id)
               user_id := userId
               node_id := p.2.2
               node_name := node.name.getD ("Node " ++ p.2.2)
               node_type := node.type.getD "unknown"
               status := "pending"
               execution_order := p.1
               parent_node_ids := DAGResolver.get_node_dependencies w.graph p.2.2
               child_node_ids := DAGResolver.get_node_dependents w.graph p.2.2
               max_retries := 3 } : NodeExecution) :: R2, ?_, ?_, ?_⟩
    · rw [hR2]
      simp
    · simp [hR2len]
    · intro i hi he
      cases i with
      | zero => exact ⟨rfl, rfl, rfl, rfl, rfl, rfl, rfl⟩
      | succ i =>
        have hi2 : i < R2.length := by simpa using hi
        have he2 : i < rest.length := by simpa using he
        exact hR2i i hi2 he2

@[simp] theorem broadcast_node_update_events (st : St) (eid : Nat) (n : NodeExecution)
    (m : String) :
    (broadcast_node_update st eid n m).events
      = st.events ++ [Event.nodeUpdate eid n.id n.node_id n.node_name n.status m] := rfl

theorem find?_map_pred {α : Type} (l : List α) (h : α → α) (p : α → Bool)
    (hp : ∀ a, p (h a) = p a) :
    (l.map h).find? p = (l.find? p).map h := by
  induction l with
  | nil => rfl
  | cons a rest ih =>
    by_cases hpa : p a = true
    · rw [List.map_cons, List.find?_cons_of_pos _ (by rw [hp a]; exact hpa),
        List.find?_cons_of_pos _ hpa]
      rfl
    · rw [List.map_cons, List.find?_cons_of_neg _ (by rw [hp a]; exact hpa),
        List.find?_cons_of_neg _ hpa]
      exact ih

theorem findNode_updNode (st : St) (nid : Nat) (f : NodeExecution → NodeExecution)
    (hf : ∀ n, (f n).id = n.id) :
    (st.updNode nid f).findNode nid
      = (st.findNode nid).map (fun n => if n.id = nid then f n else n) := by
  unfold St.findNode St.updNode
  exact find?_map_pred _ _ _ (fun n => by by_cases h : n.id = nid <;> simp [h, hf n])

theorem find?_isSome_of_proj_eq : ∀ (l1 l2 : List NodeExecution),
    l1.map (fun n => (n.id, n.workflow_execution_id, n.node_id))
       = l2.map (fun n => (n.id, n.workflow_execution_id, n.node_id)) →
    ∀ (eid : Nat) (nodeId : String),
    (l1.find? (fun n => n.workflow_execution_id == eid && n.node_id == nodeId)).isSome
      = (l2.find? (fun n => n.workflow_execution_id == eid
          && n.node_id == nodeId)).isSome := by
  intro l1
  induction l1 with
  | nil =>
    intro l2 h eid nodeId
    cases l2 with
    | nil => rfl
    | cons b l2 => simp at h
  | cons a l1 ih =>
    intro l2 h eid nodeId
    cases l2 with
    | nil => simp at h
    | cons b l2 =>
      simp only [List.map_cons, List.cons.injEq] at h
      obtain ⟨hab, hrest⟩ := h
      have h1 : a.workflow_execution_id = b.workflow_execution_id := by
        have := congrArg (fun q => q.2.1) hab
        simpa using this
      have h2 : a.node_id = b.node_id := by
        have := congrArg (fun q => q.2.2) hab
        simpa using this
      by_cases hp : (a.workflow_execution_id == eid && a.node_id == nodeId) = true
      · have e1 : List.find? (fun n => n.workflow_execution_id == eid
            && n.node_id == nodeId) (a :: l1) = some a :=
          List.find?_cons_of_pos _ hp
        have e2 : List.find? (fun n => n.workflow_execution_id == eid
            && n.node_id == nodeId) (b :: l2) = some b :=
          List.find?_cons_of_pos _ (by rw [← h1, ← h2]; exact hp)
        rw [e1, e2]
        rfl
      · have e1 : List.find? (fun n => n.workflow_execution_id == eid
            && n.node_id == nodeId) (a :: l1)
            = List.find? (fun n => n.workflow_execution_id == eid
              && n.node_id == nodeId) l1 :=
          List.find?_cons_of_neg _ hp
        have e2 : List.find? (fun n => n.workflow_execution_id == eid
            && n.node_id == nodeId) (b :: l2)
            = List.find? (fun n => n.workflow_execution_id == eid
              && n.node_id == nodeId) l2 :=
          List.find?_cons_of_neg _ (by rw [← h1, ← h2]; exact hp)
        rw [e1, e2]
        exact ih l2 hrest eid nodeId

theorem find?_id_unique {l : List NodeExecution}
    (hnd : (l.map (fun n => n.id)).Nodup) {ne : NodeExecution} (hmem : ne ∈ l) :
    l.find? (fun n => n.id == ne.id) = some ne := by
  induction l with
  | nil => cases hmem
  | cons a rest ih =>
    rw [List.map_cons, List.nodup_cons] at hnd
    rcases List.mem_cons.mp hmem with rfl | hmem2
    · rw [List.find?_cons_of_pos _ (by simp)]
    · have hne : a.id ≠ ne.id := by
        intro he
        exact hnd.1 (he ▸ List.mem_map.mpr ⟨ne, hmem2, rfl⟩)
      rw [List.find?_cons_of_neg _ (by simpa using hne)]
      exact ih hnd.2 hmem2

/-- The inline node runner always pushes the `running` node update for the
row it fetched, before anything else, whatever the parent's status is. -/
theorem inline_emits (st : St) (neid : Nat) (we : WorkflowExecution)
    (ne0 : NodeExecution) (hfind : st.findNode neid = some ne0) :
    ∃ tail, (ExecutionService._execute_node_inline st neid we).events
      = st.events ++ Event.nodeUpdate we.id ne0.id ne0.node_id ne0.node_name "running"
          "Node execution started" :: tail := by
  have hneid : ne0.id = neid := by
    have hfind2 : st.nodeExecutions.find? (fun n => n.id == neid) = some ne0 := hfind
    have h := List.find?_some hfind2
    simpa using h
  have hre := findNode_updNode st neid (fun n =>
      ({ n with status := "running", started_at := some st.now }).add_log_entry st.now
        "info" "Node execution started") (fun n => rfl)
  rw [hfind] at hre
  simp only [Option.map_some', hneid, if_pos] at hre
  unfold ExecutionService._execute_node_inline
  rw [hfind]
  simp only []
  rw [hre]
  simp only [Option.getD_some, broadcast_node_update_events, updNode_events,
    NodeExecution.add_log_entry, List.append_assoc, List.singleton_append,
    List.cons_append, List.nil_append]
  rw [hneid]
  exact ⟨_, rfl⟩

theorem inline_events_mono (st : St) (neid : Nat) (we : WorkflowExecution) :
    ∃ tail, (ExecutionService._execute_node_inline st neid we).events
      = st.events ++ tail := by
  cases hfind : st.findNode neid with
  | none =>
    refine ⟨[], ?_⟩
    unfold ExecutionService._execute_node_inline
    rw [hfind]
    simp
  | some ne0 =>
    obtain ⟨tail, htail⟩ := inline_emits st neid we ne0 hfind
    exact ⟨_, htail⟩

theorem runNode_events_mono (st : St) (execution : WorkflowExecution)
    (completed : List String) (nodeId : String) :
    ∃ tail, (ExecutionService.runNode st execution completed nodeId).1.events
      = st.events ++ tail := by
  unfold ExecutionService.runNode
  cases hf : st.nodeExecutions.find? (fun n => n.workflow_execution_id == execution.id
      && n.node_id == nodeId) with
  | none => exact ⟨[], by simp⟩
  | some ne =>
    simp only []
    obtain ⟨t1, ht1⟩ := inline_events_mono st ne.id execution
    rw [broadcast_execution_update, push_events, updExec_events, ht1, List.append_assoc]
    exact ⟨_, rfl⟩

theorem runNodes_fold_events_mono (execution : WorkflowExecution) :
    ∀ (lvl : List String) (st : St) (completed : List String),
    ∃ tail, ((lvl.foldl (fun a nid => ExecutionService.runNode a.1 execution a.2 nid)
        (st, completed)).1).events = st.events ++ tail := by
  intro lvl
  induction lvl with
  | nil => intro st completed; exact ⟨[], by simp⟩
  | cons head rest ih =>
    intro st completed
    rw [List.foldl_cons]
    obtain ⟨t1, ht1⟩ := runNode_events_mono st execution completed head
    obtain ⟨t2, ht2⟩ := ih (ExecutionService.runNode st execution completed head).1
      (ExecutionService.runNode st execution completed head).2
    refine ⟨t1 ++ t2, ?_⟩
    rw [ht2, ht1, List.append_assoc]

/-- `runNode` touches node rows only through id-preserving,
field-preserving maps, so lookups by execution and node id stay resolvable
and the id multiset is unchanged. -/
theorem runNode_preserves_rows (st : St) (execution : WorkflowExecution)
    (completed : List String) (nidRun : String) :
    ((ExecutionService.runNode st execution completed nidRun).1.nodeExecutions.map
        (fun n => (n.id, n.workflow_execution_id, n.node_id)))
      = st.nodeExecutions.map (fun n => (n.id, n.workflow_execution_id, n.node_id)) := by
  unfold ExecutionService.runNode
  cases hf : st.nodeExecutions.find? (fun n => n.workflow_execution_id == execution.id
      && n.node_id == nidRun) with
  | none => rfl
  | some ne =>
    simp only []
    rw [broadcast_execution_update]
    unfold ExecutionService._execute_node_inline
    cases hg : st.findNode ne.id with
    | none => rfl
    | some ne0 =>
      simp only [push_nodeExecutions, updExec_nodeExecutions, broadcast_node_update,
        updNode_nodeExecutions, List.map_map]
      apply List.map_congr_left
      intro n _
      by_cases h1 : n.id = ne.id <;> simp [h1, NodeExecution.add_log_entry,
        NodeExecution.calculate_duration, Function.comp]

/-- The per-node fold of one level dispatches every node id of the level
whose row is present: a `running` node update is emitted for it,
regardless of anything recorded on the parent execution. -/
theorem level_fold_dispatches (execution : WorkflowExecution) :
    ∀ (lvl : List String) (st : St) (completed : List String) (nodeId : String),
    nodeId ∈ lvl →
    (st.nodeExecutions.map (fun n => n.id)).Nodup →
    ((st.nodeExecutions.find? (fun n => n.workflow_execution_id == execution.id
        && n.node_id == nodeId)).isSome = true) →
    ∃ neid nodeName,
      Event.nodeUpdate execution.id neid nodeId nodeName "running"
          "Node execution started"
        ∈ ((lvl.foldl (fun a nid => ExecutionService.runNode a.1 execution a.2 nid)
            (st, completed)).1).events := by
  intro lvl
  induction lvl with
  | nil => intro st completed nodeId hmem; cases hmem
  | cons head rest ih =>
    intro st completed nodeId hmem hnd hsome
    rw [List.foldl_cons]
    rcases List.mem_cons.mp hmem with rfl | hmem2
    · obtain ⟨ne, hne⟩ := Option.isSome_iff_exists.mp hsome
      have hmemne : ne ∈ st.nodeExecutions := List.mem_of_find?_eq_some hne
      have hnid : ne.node_id = nodeId := by
        have h := List.find?_some hne
        simp only [Bool.and_eq_true, beq_iff_eq] at h
        exact h.2
      have hid : st.findNode ne.id = some ne :=
        find?_id_unique hnd hmemne
      have hrun : ∃ tail, (ExecutionService.runNode st execution completed nodeId).1.events
          = st.events ++ Event.nodeUpdate execution.id ne.id ne.node_id ne.node_name
              "running" "Node execution started" :: tail := by
        unfold ExecutionService.runNode
        rw [hne]
        simp only []
        obtain ⟨t1, ht1⟩ := inline_emits st ne.id execution ne hid
        rw [broadcast_execution_update, push_events, updExec_events, ht1,
          List.append_assoc, List.cons_append]
        exact ⟨_, rfl⟩
      obtain ⟨tail, htail⟩ := hrun
      obtain ⟨t2, ht2⟩ := runNodes_fold_events_mono execution rest
        (ExecutionService.runNode st execution completed nodeId).1
        (ExecutionService.runNode st execution completed nodeId).2
      refine ⟨ne.id, ne.node_name, ?_⟩
      rw [ht2, htail, hnid]
      simp
    · obtain ⟨t1, ht1⟩ := runNode_events_mono st execution completed head
      have hpres := runNode_preserves_rows st execution completed head
      have hnd2 : ((ExecutionService.runNode st execution completed head).1.nodeExecutions.map
          (fun n => n.id)).Nodup := by
        have h1 : (ExecutionService.runNode st execution completed head).1.nodeExecutions.map
            (fun n => n.id)
            = ((ExecutionService.runNode st execution completed head).1.nodeExecutions.map
              (fun n => (n.id, n.workflow_execution_id, n.node_id))).map (fun q => q.1) := by
          rw [List.map_map]
          rfl
        rw [h1, hpres, List.map_map]
        exact hnd
      have hsome2 : (((ExecutionService.runNode st execution completed head).1).nodeExecutions.find?
          (fun n => n.workflow_execution_id == execution.id && n.node_id == nodeId)).isSome
          = true := by
        rw [find?_isSome_of_proj_eq _ _ hpres execution.id nodeId]
        exact hsome
      exact ih _ _ nodeId hmem2 hnd2 hsome2

/-- C5 counterexample: on the diamond workflow, node `n3` sits in level 1
of the plan, but the created row's `execution_order` is its position 2 in
the flattened order — the enumerate index, not the level index. -/
theorem C5_counterexample_flat_order :
    DAGResolver.topological_sort diamondW.graph = .ok [["n1"], ["n2", "n3"], ["n4"]]
    ∧ ((ExecutionService.create_execution diamondSt 1 1 {}).okState.map
        (fun s => s.nodeExecutions.map (fun n => (n.node_id, n.execution_order))))
        = some [("n1", 0), ("n2", 1), ("n3", 2), ("n4", 3)]
    ∧ (([["n1"], ["n2", "n3"], ["n4"]] : List (List String)).findIdx
        (fun L => decide ("n3" ∈ L))) = 1
    ∧ (2 : Nat) ≠ 1 := by
  refine ⟨by decide, by decide, by decide, by decide⟩

/-- C5 amended: on success `create_execution` inserts exactly one
`NodeExecution` per spec node, each `pending`, with parents and children
taken from the resolver — but `execution_order` is the row's index in the
flattened level order (the enumerate counter), not the index of the level
containing the node. -/
theorem C5_amended_created_rows (st : St) (workflowId userId : Nat)
    (data : ExecutionCreate) (w : Workflow) (levels : List (List String))
    (hw : st.workflows.find? (fun w0 => w0.id == workflowId && w0.user_id == userId)
      = some w)
    (hv : w.validate_structure = (true, none))
    (hsort : DAGResolver.topological_sort w.graph = .ok levels) :
    ∃ st2 R,
      ExecutionService.create_execution st workflowId userId data
          = .ok st2 (some st.nextId)
      ∧ st2.nodeExecutions = st.nodeExecutions ++ R
      ∧ R.map (fun n => n.node_id) = levels.flatten
      ∧ (∀ v ∈ DAGResolver.nodeIds w.graph, (R.map (fun n => n.node_id)).count v = 1)
      ∧ (∀ i (hi : i < R.length),
          (R.get ⟨i, hi⟩).status = "pending"
          ∧ (R.get ⟨i, hi⟩).workflow_execution_id = st.nextId
          ∧ (R.get ⟨i, hi⟩).user_id = userId
          ∧ (R.get ⟨i, hi⟩).execution_order = i
          ∧ (R.get ⟨i, hi⟩).parent_node_ids
              = DAGResolver.get_node_dependencies w.graph ((R.get ⟨i, hi⟩).node_id)
          ∧ (R.get ⟨i, hi⟩).child_node_ids
              = DAGResolver.get_node_dependents w.graph ((R.get ⟨i, hi⟩).node_id)) := by
  have heo : DAGResolver.get_execution_order w.graph
      = .ok (levels.enum.flatMap (fun p => p.2.map (fun nid => (p.1, nid)))) := by
    unfold DAGResolver.get_execution_order
    rw [hsort]
  have hmemiff := sort_ok_mem hsort
  have hsnd : (levels.enum.flatMap
        (fun p => p.2.map (fun nid => (p.1, nid)))).map (fun p => p.2)
      = levels.flatten := flatMap_enumFrom_snd_map levels 0
  have hids : ∀ p ∈ (levels.enum.flatMap
      (fun p => p.2.map (fun nid => (p.1, nid)))).enum,
      (w.get_node_by_id p.2.2).isSome = true := by
    intro p hp
    have hp2 := snd_mem_of_mem_enumFrom hp
    have hp3 : p.2.2 ∈ (levels.enum.flatMap
        (fun p => p.2.map (fun nid => (p.1, nid)))).map (fun q => q.2) :=
      List.mem_map.mpr ⟨p.2, hp2, rfl⟩
    rw [hsnd] at hp3
    exact get_node_by_id_isSome ((hmemiff _).mp hp3)
  unfold ExecutionService.create_execution
  rw [hw]
  simp only []
  rw [hv]
  simp only []
  rw [heo]
  simp only []
  obtain ⟨R, hR, hRlen, hRi⟩ := createRows_spec workflowId userId st.nextId w _ _ hids
  have hmap : R.map (fun n => n.node_id) = levels.flatten := by
    have hstep1 : R.map (fun n => n.node_id)
        = ((levels.enum.flatMap (fun p => p.2.map (fun nid => (p.1, nid)))).enum).map
            (fun p => p.2.2) := by
      apply List.ext_getElem
      · simpa using hRlen
      · intro n h1 h2
        rw [List.getElem_map, List.getElem_map]
        have hn1 : n < R.length := by simpa using h1
        have hn2 : n < ((levels.enum.flatMap
            (fun p => p.2.map (fun nid => (p.1, nid)))).enum).length := by
          simpa using h2
        have := (hRi n hn1 hn2).2.2.2.1
        simpa [List.get_eq_getElem] using this
    have hstep2 : ((levels.enum.flatMap
          (fun p => p.2.map (fun nid => (p.1, nid)))).enum).map (fun p => p.2.2)
        = ((levels.enum.flatMap (fun p => p.2.map (fun nid => (p.1, nid)))).map
            (fun p => p.2)) := by
      have h3 := List.enum_map_snd (levels.enum.flatMap
        (fun p => p.2.map (fun nid => (p.1, nid))))
      calc ((levels.enum.flatMap
            (fun p => p.2.map (fun nid => (p.1, nid)))).enum).map (fun p => p.2.2)
          = (((levels.enum.flatMap
              (fun p => p.2.map (fun nid => (p.1, nid)))).enum).map
                (fun p => p.2)).map (fun q => q.2) := by
            rw [List.map_map]
            rfl
        _ = _ := by rw [h3]
    rw [hstep1, hstep2, hsnd]
  refine ⟨_, R, rfl, ?_, hmap, ?_, ?_⟩
  · rw [updExec_nodeExecutions, hR]
  · intro v hv
    rw [hmap]
    exact sort_ok_count hsort v hv
  · intro i hi
    have he : i < ((levels.enum.flatMap
        (fun p => p.2.map (fun nid => (p.1, nid)))).enum).length := hRlen ▸ hi
    obtain ⟨h1, h2, h3, h4, h5, h6, h7⟩ := hRi i hi he
    refine ⟨h1, h2, h3, ?_, ?_, ?_⟩
    · rw [h5]
      simp [List.get_eq_getElem, List.getElem_enum]
    · rw [h6, h4]
    · rw [h7, h4]
theorem C6_amended_ownership_witness :
    (({ id := 10, workflow_id := 1, user_id := 1, status := "failed",
        total_nodes := 1 } : WorkflowExecution).user_id = 1)
    ∧ ExecutionService.execute_node foreignRetrySt 20 10 1
        = ExecutionService.execute_node foreignRetrySt 20 10 2
    ∧ ExecutionService.retry_node_execution foreignRetrySt 20 1
        = ExecutionService.retry_node_execution foreignRetrySt 20 2 :=
  ⟨(C6_amended_ownership foreignRetrySt 10 20 10 1 1 2
      { id := 10, workflow_id := 1, user_id := 1, status := "failed",
        total_nodes := 1 }).1 (by decide),
    (C6_amended_ownership foreignRetrySt 10 20 10 1 1 2
      { id := 10, workflow_id := 1, user_id := 1, status := "failed",
        total_nodes := 1 }).2.1,
    (C6_amended_ownership foreignRetrySt 10 20 10 1 1 2
      { id := 10, workflow_id := 1, user_id := 1, status := "failed",
        total_nodes := 1 }).2.2⟩

/-- C7 counterexample: in the two-node chain `n1 -> n2`, a cancellation
landing between level 0 and level 1 marks the parent execution and the
still-pending row `n2` as `cancelled`, yet the executor still dispatches
`n2` in level 1: a fresh `running` node update for `n2` is emitted after
the cancellation point and the row ends `completed`. -/
theorem C7_counterexample_dispatch_after_cancel :
    (ExecutionService.get_execution cancelRaceStC 10 1).map (fun e => e.status)
        = some "cancelled"
    ∧ (cancelRaceStC.findNode 21).map (fun n => n.status) = some "cancelled"
    ∧ (cancelRaceSt2.findNode 21).map (fun n => n.status) = some "completed"
    ∧ Event.nodeUpdate 10 21 "n2" "n2" "running" "Node execution started"
        ∈ cancelRaceSt2.events.drop cancelRaceStC.events.length := by
  refine ⟨by decide, by decide, by decide, by decide⟩

/-- C7 amended: the level loop of `execute_workflow` never observes
cancellation.  Even when the stored parent execution is already
`cancelled`, running one level still dispatches every node id of the
level whose row is present: a `running` node update for it is emitted
unconditionally. -/
theorem C7_amended_level_ignores_cancellation (st : St) (execution : WorkflowExecution)
    (numLevels : Nat) (completed : List String) (p : Nat × List String) (nodeId : String)
    (hcancel : (ExecutionService.get_execution st execution.id execution.user_id).map
        (fun e => e.status) = some "cancelled")
    (hmem : nodeId ∈ p.2)
    (hnd : (st.nodeExecutions.map (fun n => n.id)).Nodup)
    (hsome : (st.nodeExecutions.find? (fun n => n.workflow_execution_id == execution.id
        && n.node_id == nodeId)).isSome = true) :
    ∃ neid nodeName,
      Event.nodeUpdate execution.id neid nodeId nodeName "running"
          "Node execution started"
        ∈ (ExecutionService.runLevel execution numLevels (st, completed) p).1.events := by
  unfold ExecutionService.runLevel
  exact level_fold_dispatches execution p.2 _ completed nodeId hmem hnd hsome
theorem C7_amended_level_ignores_cancellation_witness :
    (ExecutionService.get_execution cancelRaceStC cancelRaceExec.id
        cancelRaceExec.user_id).map (fun e => e.status) = some "cancelled"
    ∧ ∃ neid nodeName,
      Event.nodeUpdate cancelRaceExec.id neid "n2" nodeName "running"
          "Node execution started"
        ∈ (ExecutionService.runLevel cancelRaceExec 2 (cancelRaceStC, ["n1"])
            (1, ["n2"])).1.events :=
  ⟨by decide,
    C7_amended_level_ignores_cancellation cancelRaceStC cancelRaceExec 2 ["n1"]
      (1, ["n2"]) "n2" (by decide) (by decide) (by decide) (by decide)⟩

theorem C5_amended_created_rows_witness :
    (diamondSt.workflows.find? (fun w0 => w0.id == 1 && w0.user_id == 1)
        = some diamondW)
    ∧ diamondW.validate_structure = (true, none)
    ∧ DAGResolver.topological_sort diamondW.graph = .ok [["n1"], ["n2", "n3"], ["n4"]]
    ∧ ∃ st2 R,
      ExecutionService.create_execution diamondSt 1 1 {}
          = .ok st2 (some diamondSt.nextId)
      ∧ st2.nodeExecutions = diamondSt.nodeExecutions ++ R
      ∧ R.map (fun n => n.node_id)
          = ([["n1"], ["n2", "n3"], ["n4"]] : List (List String)).flatten
      ∧ (∀ v ∈ DAGResolver.nodeIds diamondW.graph,
          (R.map (fun n => n.node_id)).count v = 1)
      ∧ (∀ i (hi : i < R.length),
          (R.get ⟨i, hi⟩).status = "pending"
          ∧ (R.get ⟨i, hi⟩).workflow_execution_id = diamondSt.nextId
          ∧ (R.get ⟨i, hi⟩).user_id = 1
          ∧ (R.get ⟨i, hi⟩).execution_order = i
          ∧ (R.get ⟨i, hi⟩).parent_node_ids
              = DAGResolver.get_node_dependencies diamondW.graph
                  ((R.get ⟨i, hi⟩).node_id)
          ∧ (R.get ⟨i, hi⟩).child_node_ids
              = DAGResolver.get_node_dependents diamondW.graph
                  ((R.get ⟨i, hi⟩).node_id)) :=
  ⟨by decide, by decide, by decide,
    C5_amended_created_rows diamondSt 1 1 {} diamondW [["n1"], ["n2", "n3"], ["n4"]]
      (by decide) (by decide) (by decide)⟩

/-- C1 counterexample: the acyclic graph with node ids `""` and `"a"` and
the single connection `a -> ""`, both endpoints node ids.  The falsy check
of `_build_adjacency_list` drops the edge, both nodes keep in-degree 0 and
land in the same level, so the level index of the source is not strictly
below the level index of the target. -/
theorem C1_counterexample_falsy_id :
    (⟨"a", ""⟩ : Conn) ∈ falsyIdG.connections
    ∧ "a" ∈ DAGResolver.nodeIds falsyIdG
    ∧ "" ∈ DAGResolver.nodeIds falsyIdG
    ∧ DAGResolver.topological_sort falsyIdG = .ok [["", "a"]]
    ∧ ¬(([["", "a"]] : List (List String)).findIdx (fun L => decide ("a" ∈ L))
        < ([["", "a"]] : List (List String)).findIdx (fun L => decide ("" ∈ L))) := by
  refine ⟨by decide, by decide, by decide, by decide, by decide⟩

/-- C2 counterexample: nodes `""` and `"a"` with connections `"" -> "a"`
and `a -> ""` — a genuine two-cycle among node ids, and one structural
validation accepts.  Both edges are dropped by the falsy check, Kahn
succeeds with a single level, and `create_execution` returns ok and
materializes the execution row and both node rows instead of raising. -/
theorem C2_counterexample_falsy_cycle :
    (⟨"", "a"⟩ : Conn) ∈ falsyCycleW.connections
    ∧ (⟨"a", ""⟩ : Conn) ∈ falsyCycleW.connections
    ∧ "" ∈ DAGResolver.nodeIds falsyCycleW.graph
    ∧ "a" ∈ DAGResolver.nodeIds falsyCycleW.graph
    ∧ falsyCycleW.validate_structure = (true, none)
    ∧ DAGResolver.topological_sort falsyCycleW.graph = .ok [["", "a"]]
    ∧ ((ExecutionService.create_execution falsyCycleSt 3 1 {}).okState.map
        (fun s => s.nodeExecutions.map (fun n => (n.node_id, n.status))))
        = some [("", "pending"), ("a", "pending")]
    ∧ (ExecutionService.create_execution falsyCycleSt 3 1 {}).errState = none := by
  refine ⟨by decide, by decide, by decide, by decide, by decide, by decide,
    by decide, by decide⟩

section Scratch

open DAGResolver

theorem scratch_eval_1 :
    topological_sort ⟨[⟨"node-1", some "trigger", none⟩, ⟨"node-2", some "agent", none⟩,
        ⟨"node-3", some "action", none⟩],
      [⟨"node-1", "node-2"⟩, ⟨"node-2", "node-3"⟩]⟩ =
    .ok [["node-1"], ["node-2"], ["node-3"]] := by decide

theorem scratch_eval_2 :
    topological_sort ⟨[⟨"node-1", none, none⟩, ⟨"node-2", none, none⟩,
        ⟨"node-3", none, none⟩, ⟨"node-4", none, none⟩],
      [⟨"node-1", "node-2"⟩, ⟨"node-1", "node-3"⟩, ⟨"node-2", "node-4"⟩,
        ⟨"node-3", "node-4"⟩]⟩ =
    .ok [["node-1"], ["node-2", "node-3"], ["node-4"]] := by decide

theorem scratch_eval_3 :
    (topological_sort ⟨[⟨"node-1", none, none⟩, ⟨"node-2", none, none⟩],
      [⟨"node-1", "node-2"⟩, ⟨"node-2", "node-1"⟩]⟩).isOk = false := by decide

theorem scratch_eval_4 :
    topological_sort ⟨[], []⟩ =
    .error "No starting nodes found (all nodes have dependencies)" := by decide

theorem scratch_eval_5 :
    get_execution_order ⟨[⟨"node-1", none, none⟩, ⟨"node-2", none, none⟩,
        ⟨"node-3", none, none⟩, ⟨"node-4", none, none⟩],
      [⟨"node-1", "node-2"⟩, ⟨"node-1", "node-3"⟩, ⟨"node-2", "node-4"⟩,
        ⟨"node-3", "node-4"⟩]⟩ =
    .ok [(0, "node-1"), (1, "node-2"), (1, "node-3"), (2, "node-4")] := by decide

theorem scratch_eval_6 :
    get_node_dependencies ⟨[⟨"node-1", none, none⟩, ⟨"node-2", none, none⟩,
        ⟨"node-3", none, none⟩],
      [⟨"node-1", "node-2"⟩, ⟨"node-2", "node-3"⟩]⟩ "node-3" = ["node-2"] := by decide

theorem scratch_eval_7 :
    can_execute_node ⟨[⟨"node-1", none, none⟩, ⟨"node-2", none, none⟩],
      [⟨"node-1", "node-2"⟩]⟩ "ghost" [] = true := by decide

end Scratch
